import Mathlib

/-!
# XBridgePacket: byte buffer reads, signing and verification

A shallow embedding of `src/xbridge/xbridgepacket.cpp`.

* Bytes are natural numbers, a byte buffer (`std::vector<unsigned char>`,
  `std::string`, a C array) is a `List Nat`.
* `size_t` arithmetic is arithmetic on `Nat` modulo `2 ^ 64`, `uint32_t`
  arithmetic is modulo `2 ^ 32`.
* Every access to the packet buffer goes through `memRead` / `memWrite`, which
  return `none` when the addressed range does not lie inside the buffer
  (undefined behaviour in C++).  A function of the packet therefore returns an
  `Option`; `none` means "performed an access outside the buffer".
* The constants of the class declaration (`headerSize`, `pubkeySize`, ...) and
  the positions of the header fields are not part of the translation unit; they
  are the fields of `Layout`.  The secp256k1 and SHA-256 primitives are the
  fields of `Secp`.
-/

namespace XBridge

/-! ## Machine integers and memory -/

/-- Number of values of the 64-bit unsigned type `size_t`. -/
def SIZE_MOD : Nat := 2 ^ 64

/-- Number of values of `uint32_t`. -/
def U32_MOD : Nat := 2 ^ 32

/-- Checked read of `n` bytes of `buf` starting at `off`; `none` when the range
`off .. off + n - 1` is not inside `buf`. -/
def memRead (buf : List Nat) (off n : Nat) : Option (List Nat) :=
  if off + n ≤ buf.length then some ((buf.drop off).take n) else none

/-- The buffer `buf` with the bytes at `off .. off + bytes.length - 1` replaced by
`bytes`. -/
def storeAt (buf : List Nat) (off : Nat) (bytes : List Nat) : List Nat :=
  buf.take off ++ bytes ++ buf.drop (off + bytes.length)

/-- Checked write of `bytes` over `buf` starting at `off`; `none` when the range
is not inside `buf`. -/
def memWrite (buf : List Nat) (off : Nat) (bytes : List Nat) : Option (List Nat) :=
  if off + bytes.length ≤ buf.length then some (storeAt buf off bytes) else none

/-- The effect of `memcpy(dst, src, n)` on a destination object `dst`: its first
`n` bytes are replaced by `src` (a list of `n` bytes), the rest is kept.  The
destination is caller memory of at least `n` bytes. -/
def copyInto (dst src : List Nat) : List Nat :=
  src ++ dst.drop src.length

/-- The member `resize(n, fill)` of `std::vector` and `std::string`. -/
def resize (l : List Nat) (n fill : Nat) : List Nat :=
  l.take n ++ List.replicate (n - l.length) fill

/-! ## Packet -/

/-- The packet: its only data member used by the translation unit is the byte
vector `m_body`, holding header and body. -/
structure XBridgePacket where
  m_body : List Nat
deriving DecidableEq, Repr

/-- Modelled from the spec: the accessor `size()` is declared in the class header,
which is not among the sources; the spec describes it as the
"total buffer length". -/
def XBridgePacket.size (p : XBridgePacket) : Nat := p.m_body.length

/-- Modelled from the spec: the accessor `data()` is declared in the class header,
which is not among the sources; the spec describes it as
"a read-only view of the raw bytes".  The result is the offset of `data()`
inside `m_body`. -/
def XBridgePacket.data (_p : XBridgePacket) : Nat := 0

/-- The raw read `size_t read(offset, unsigned char * data, size)`.
`data` is the content of the destination before the call; the result is the
returned value and the content of the destination after the call. -/
def XBridgePacket.read (p : XBridgePacket) (offset : Nat) (data : List Nat) (size : Nat) :
    Option (Nat × List Nat) :=
  if (offset + size) % SIZE_MOD > p.size ∨ size = 0 then
    some (0, data)
  else
    match memRead p.m_body (p.data + offset) size with
    | none => none
    | some bytes => some (size, copyInto data bytes)

/-- Modelled from the spec: `sizeof(uint256)`; the type is declared in `uint256.h`,
which is not among the sources.  The spec calls it "a 256-bit hash" of
"32 bytes". -/
def UINT256_SIZE : Nat := 32

/-- The overload `size_t read(offset, uint256 & data)`; `data` is the content of
the hash object before the call. -/
def XBridgePacket.read_uint256 (p : XBridgePacket) (offset : Nat) (data : List Nat) :
    Option (Nat × List Nat) :=
  p.read offset data UINT256_SIZE

/-- The overload `size_t read(offset, std::vector<unsigned char> & data, size)`. -/
def XBridgePacket.read_vector (p : XBridgePacket) (offset : Nat) (data : List Nat)
    (size : Nat) : Option (Nat × List Nat) :=
  p.read offset (resize data size 0) size

/-- The loop `for (; i > 0 && data[i] == 0; --i) {}` of the fixed-size string
read, started at `i`; the result is the value of `i` after the loop. -/
def stripLoop (data : List Nat) : Nat → Nat
  | 0 => 0
  | i + 1 => if data[i + 1]? = some 0 then stripLoop data i else i + 1

/-- The overload `size_t read(offset, std::string & data, size)`.  The local
`i` is a `uint32_t`, so both `data.size() - 1` and `i + 1` are taken modulo
`2 ^ 32`. -/
def XBridgePacket.read_string_sized (p : XBridgePacket) (offset : Nat) (data : List Nat)
    (size : Nat) : Option (Nat × List Nat) :=
  match p.read offset (resize data size 32) size with
  | none => none
  | some (result, data1) =>
    if result > 0 then
      let i := ((data1.length + SIZE_MOD - 1) % SIZE_MOD) % U32_MOD
      let j := stripLoop data1 i
      some (result, resize data1 ((j + 1) % U32_MOD) 0)
    else
      some (result, data1)

/-! ## Header layout and cryptographic primitives -/

/-- The constants of the class declaration used by the translation unit, and the
offsets inside `m_body` that the accessors `pubkeyField()` and
`signatureField()` point to. -/
structure Layout where
  headerSize : Nat
  pubkeySize : Nat
  rawSignatureSize : Nat
  privkeySize : Nat
  pubkeyField : Nat
  signatureField : Nat
deriving DecidableEq, Repr

/-- The primitives of the secp256k1 library and of `CSHA256` that the translation
unit calls, over the library's types of parsed signatures (`Sig`), parsed
public keys (`Pub`) and hash values (`Hash`).  A primitive that reports failure
by returning `0` returns `none`; `ecdsa_verify` is `true` exactly when the
library returns `1`; `ec_pubkey_serialize` returns the output bytes and the
output length. -/
structure Secp (Sig Pub Hash : Type) where
  sha256 : List Nat → Hash
  ecdsa_sign : Hash → List Nat → Option Sig
  ecdsa_signature_serialize_compact : Sig → List Nat
  ecdsa_signature_parse_compact : List Nat → Option Sig
  ec_pubkey_parse : List Nat → Option Pub
  ecdsa_verify : Sig → Hash → Pub → Bool
  ec_pubkey_serialize : Pub → List Nat × Nat

/-- The member `bool verify()`.  The result is the returned value and the packet
after the call. -/
def XBridgePacket.verify {Sig Pub Hash : Type} (L : Layout) (C : Secp Sig Pub Hash)
    (p : XBridgePacket) : Option (Bool × XBridgePacket) :=
  match memRead p.m_body L.signatureField L.rawSignatureSize with
  | none => none
  | some signature =>
  match memWrite p.m_body L.signatureField (List.replicate L.rawSignatureSize 0) with
  | none => none
  | some zeroed =>
  let hash := C.sha256 zeroed
  match memWrite zeroed L.signatureField signature with
  | none => none
  | some restored =>
  let q : XBridgePacket := { m_body := restored }
  match memRead restored L.signatureField L.rawSignatureSize with
  | none => none
  | some sigBytes =>
  match C.ecdsa_signature_parse_compact sigBytes with
  | none => some (false, q)
  | some sig =>
  match memRead restored L.pubkeyField L.pubkeySize with
  | none => none
  | some pubBytes =>
  match C.ec_pubkey_parse pubBytes with
  | none => some (false, q)
  | some scpubkey =>
  if C.ecdsa_verify sig hash scpubkey ≠ true then some (false, q)
  else
    let pub := (C.ec_pubkey_serialize scpubkey).1
    let len := (C.ec_pubkey_serialize scpubkey).2
    if pub.take L.pubkeySize ≠ pubBytes then some (false, q)
    else if len ≠ L.pubkeySize then some (false, q)
    else some (true, q)

/-- The member `bool verify(const std::vector<unsigned char> & pubkey)`. -/
def XBridgePacket.verify_pubkey {Sig Pub Hash : Type} (L : Layout) (C : Secp Sig Pub Hash)
    (p : XBridgePacket) (pubkey : List Nat) : Option (Bool × XBridgePacket) :=
  if pubkey.length ≠ L.pubkeySize then some (false, p)
  else
    match memRead p.m_body L.pubkeyField L.pubkeySize with
    | none => none
    | some field =>
      if field ≠ pubkey.take L.pubkeySize then some (false, p)
      else p.verify L C

/-- The member `bool sign(pubkey, privkey)`. -/
def XBridgePacket.sign {Sig Pub Hash : Type} (L : Layout) (C : Secp Sig Pub Hash)
    (p : XBridgePacket) (pubkey privkey : List Nat) : Option (Bool × XBridgePacket) :=
  if pubkey.length ≠ L.pubkeySize ∨ privkey.length ≠ L.privkeySize then some (false, p)
  else
    match memWrite p.m_body L.pubkeyField (pubkey.take L.pubkeySize) with
    | none => none
    | some b1 =>
    match memWrite b1 L.signatureField (List.replicate L.rawSignatureSize 0) with
    | none => none
    | some b2 =>
    let hash := C.sha256 b2
    match C.ecdsa_sign hash privkey with
    | none => some (false, { m_body := b2 })
    | some sig =>
    match memWrite b2 L.signatureField (C.ecdsa_signature_serialize_compact sig) with
    | none => none
    | some b3 => XBridgePacket.verify L C { m_body := b3 }

/-! ## Fixed-width integers and floating-point fields -/

/-- The `n` bytes of the object representation of the unsigned integer `v`, least
significant byte first. -/
def toBytes : Nat → Nat → List Nat
  | 0, _ => []
  | n + 1, v => v % 256 :: toBytes n (v / 256)

/-- The unsigned integer whose object representation is `bytes`, least
significant byte first. -/
def ofBytes : List Nat → Nat
  | [] => 0
  | b :: bs => b + 256 * ofBytes bs

/-- Modelled from the spec: the overload `append(uint64_t)` is defined in the class
header, which is not among the sources.  The spec: "serializes `value` in a
fixed, type-specific byte width, in a single consistent byte order, appended to
the body".  The byte order, which the spec leaves open, is that of `toBytes`. -/
def XBridgePacket.append_uint64 (p : XBridgePacket) (value : Nat) : XBridgePacket :=
  { m_body := p.m_body ++ toBytes 8 value }

/-- Modelled from the spec: the overload `read(offset, uint64_t &)` is defined in
the class header, which is not among the sources.  The spec: "reads exactly the
type's byte width starting at `offset`; fails (returns 0 / signals error) if
`offset + width` exceeds the buffer".  It is the raw read into the 8 bytes of
`value`. -/
def XBridgePacket.read_uint64 (p : XBridgePacket) (offset : Nat) (value : Nat) :
    Option (Nat × Nat) :=
  match p.read offset (toBytes 8 value) 8 with
  | none => none
  | some (size, bytes) => some (size, ofBytes bytes)

/-- The floating-point types and the operations on them that the translation unit
uses: `F32` is `float`, `F64` is `double`; `widen` is the implicit conversion
of a `float` argument to `double`, `narrow` is `static_cast<float>` of a
`double`, `ofU64` is the conversion of a `uint64_t` to `double`, and
`pack_f64` / `unpack_f64` are the codec of `util/ieee-packing.hpp`, which is not
among the sources (`pack_f64` returns a `uint64_t`). -/
structure FloatModel (F32 F64 : Type) where
  widen : F32 → F64
  narrow : F64 → F32
  ofU64 : Nat → F64
  pack_f64 : F64 → Nat
  unpack_f64 : Nat → F64

/-- The overload `void append(const double data)`. -/
def XBridgePacket.append_double {F32 F64 : Type} (M : FloatModel F32 F64)
    (p : XBridgePacket) (data : F64) : XBridgePacket :=
  p.append_uint64 (M.pack_f64 data)

/-- The overload `void append(const float data)`. -/
def XBridgePacket.append_float {F32 F64 : Type} (M : FloatModel F32 F64)
    (p : XBridgePacket) (data : F32) : XBridgePacket :=
  p.append_uint64 (M.pack_f64 (M.widen data))

/-- The overload `size_t read(offset, float & data)`. -/
def XBridgePacket.read_float {F32 F64 : Type} (M : FloatModel F32 F64)
    (p : XBridgePacket) (offset : Nat) : Option (Nat × F32) :=
  match p.read_uint64 offset 0 with
  | none => none
  | some (size, value) => some (size, M.narrow (M.unpack_f64 value))

/-- The overload `size_t read(offset, double & data)`:
`data = static_cast<double>(pack_f64(value))`, where `value` is a `uint64_t`
converted to the `double` parameter of `pack_f64`. -/
def XBridgePacket.read_double {F32 F64 : Type} (M : FloatModel F32 F64)
    (p : XBridgePacket) (offset : Nat) : Option (Nat × F64) :=
  match p.read_uint64 offset 0 with
  | none => none
  | some (size, value) => some (size, M.ofU64 (M.pack_f64 (M.ofU64 value)))

/-! ## Specification-side definitions -/

/-- The `size` bytes of `data()` at positions `offset .. offset + size - 1`. -/
def XBridgePacket.bytesAt (p : XBridgePacket) (offset size : Nat) : List Nat :=
  (p.m_body.drop (p.data + offset)).take size

/-- The bytes of the sender-pubkey field. -/
def XBridgePacket.pubkeyBytes (L : Layout) (p : XBridgePacket) : List Nat :=
  (p.m_body.drop L.pubkeyField).take L.pubkeySize

/-- The bytes of the signature field. -/
def XBridgePacket.signatureBytes (L : Layout) (p : XBridgePacket) : List Nat :=
  (p.m_body.drop L.signatureField).take L.rawSignatureSize

/-- The entire byte buffer with the signature field replaced by zero bytes. -/
def XBridgePacket.zeroedSignature (L : Layout) (p : XBridgePacket) : List Nat :=
  storeAt p.m_body L.signatureField (List.replicate L.rawSignatureSize 0)

/-- The packet with `pubkey` stored in the sender-pubkey field. -/
def XBridgePacket.withPubkey (L : Layout) (p : XBridgePacket) (pubkey : List Nat) :
    XBridgePacket :=
  { m_body := storeAt p.m_body L.pubkeyField pubkey }

/-- The packet with `signature` stored in the signature field. -/
def XBridgePacket.withSignature (L : Layout) (p : XBridgePacket) (signature : List Nat) :
    XBridgePacket :=
  { m_body := storeAt p.m_body L.signatureField signature }

/-- Both header fields lie inside the header. -/
def Layout.fieldsInHeader (L : Layout) : Prop :=
  L.pubkeyField + L.pubkeySize ≤ L.headerSize ∧
  L.signatureField + L.rawSignatureSize ≤ L.headerSize

/-- The sender-pubkey field and the signature field do not overlap. -/
def Layout.fieldsDisjoint (L : Layout) : Prop :=
  L.pubkeyField + L.pubkeySize ≤ L.signatureField ∨
  L.signatureField + L.rawSignatureSize ≤ L.pubkeyField

/-- The buffer of the packet holds a complete header. -/
def XBridgePacket.hasHeader (L : Layout) (p : XBridgePacket) : Prop :=
  L.headerSize ≤ p.m_body.length

instance (L : Layout) : Decidable L.fieldsInHeader := by
  unfold Layout.fieldsInHeader
  infer_instance

instance (L : Layout) : Decidable L.fieldsDisjoint := by
  unfold Layout.fieldsDisjoint
  infer_instance

instance (L : Layout) (p : XBridgePacket) : Decidable (p.hasHeader L) := by
  unfold XBridgePacket.hasHeader
  infer_instance

/-- The five checks of `verify()` as the specification lists them: the signature
field parses, the sender-pubkey field parses, the signature verifies under the
parsed key against the hash of the buffer with zeroed signature field, the
compressed re-serialisation of the key equals the sender-pubkey field, and the
re-serialised length is `pubkeySize`. -/
def XBridgePacket.fiveChecks {Sig Pub Hash : Type} (L : Layout) (C : Secp Sig Pub Hash)
    (p : XBridgePacket) : Prop :=
  ∃ sig scpubkey,
    C.ecdsa_signature_parse_compact (p.signatureBytes L) = some sig ∧
    C.ec_pubkey_parse (p.pubkeyBytes L) = some scpubkey ∧
    C.ecdsa_verify sig (C.sha256 (p.zeroedSignature L)) scpubkey = true ∧
    (C.ec_pubkey_serialize scpubkey).1.take L.pubkeySize = p.pubkeyBytes L ∧
    (C.ec_pubkey_serialize scpubkey).2 = L.pubkeySize

/-- The results of `n` successive calls of `verify()` and the packet after the
last call. -/
def XBridgePacket.verify_repeat {Sig Pub Hash : Type} (L : Layout) (C : Secp Sig Pub Hash) :
    Nat → XBridgePacket → Option (List Bool × XBridgePacket)
  | 0, p => some ([], p)
  | n + 1, p =>
    match p.verify L C with
    | none => none
    | some (b, q) =>
      match XBridgePacket.verify_repeat L C n q with
      | none => none
      | some (bs, r) => some (b :: bs, r)

/-- The value that `verify()` computes from the bytes of the packet: the chain of
its five checks over the signature field, the sender-pubkey field and the
buffer with zeroed signature field. -/
def XBridgePacket.verifyResult {Sig Pub Hash : Type} (L : Layout) (C : Secp Sig Pub Hash)
    (p : XBridgePacket) : Bool :=
  match C.ecdsa_signature_parse_compact (p.signatureBytes L) with
  | none => false
  | some sig =>
    match C.ec_pubkey_parse (p.pubkeyBytes L) with
    | none => false
    | some scpubkey =>
      C.ecdsa_verify sig (C.sha256 (p.zeroedSignature L)) scpubkey &&
      decide ((C.ec_pubkey_serialize scpubkey).1.take L.pubkeySize = p.pubkeyBytes L) &&
      decide ((C.ec_pubkey_serialize scpubkey).2 = L.pubkeySize)

/-- The byte string that `sign(pubkey, privkey)` hashes: the whole buffer after
`pubkey` has been stored in the sender-pubkey field and the signature field has
been zeroed. -/
def XBridgePacket.signedBytes (L : Layout) (p : XBridgePacket) (pubkey : List Nat) :
    List Nat :=
  (p.withPubkey L pubkey).zeroedSignature L

/-- The pair `(pubkey, privkey)` is a valid keypair for primitives that work
correctly: the keys have the required lengths; signing with `privkey` succeeds;
the compact serialisation of a signature made with `privkey` fills the
signature field and parses back to that signature; `pubkey` parses to a key
under which every signature made with `privkey` over a hash verifies for that
hash, and which re-serialises in compressed form to the `pubkeySize` bytes of
`pubkey`. -/
def Secp.validKeypair {Sig Pub Hash : Type} (C : Secp Sig Pub Hash) (L : Layout)
    (pubkey privkey : List Nat) : Prop :=
  pubkey.length = L.pubkeySize ∧ privkey.length = L.privkeySize ∧
  (∀ h, ∃ sig, C.ecdsa_sign h privkey = some sig) ∧
  (∀ h sig, C.ecdsa_sign h privkey = some sig →
    (C.ecdsa_signature_serialize_compact sig).length = L.rawSignatureSize ∧
    C.ecdsa_signature_parse_compact (C.ecdsa_signature_serialize_compact sig) = some sig) ∧
  ∃ scpubkey, C.ec_pubkey_parse pubkey = some scpubkey ∧
    (∀ h sig, C.ecdsa_sign h privkey = some sig → C.ecdsa_verify sig h scpubkey = true) ∧
    C.ec_pubkey_serialize scpubkey = (pubkey, L.pubkeySize)

/-! ## A small instance

A layout with a five-byte header and a toy signature scheme, used to evaluate
the definitions on concrete packets. -/

/-- A five-byte header: one byte of other fields, a two-byte sender-pubkey field
and a two-byte signature field. -/
def demoLayout : Layout :=
  { headerSize := 5, pubkeySize := 2, rawSignatureSize := 2, privkeySize := 1,
    pubkeyField := 1, signatureField := 3 }

/-- A toy scheme over byte lists: the hash is the byte sum modulo 256, a public
key is `[2, k]` for the private key `[k]`, the signature of `h` is `[h, k]`. -/
def demoSecp : Secp (List Nat) (List Nat) Nat :=
  { sha256 := fun bytes => bytes.sum % 256
    ecdsa_sign := fun h priv =>
      match priv with
      | [k] => if k = 0 then none else some [h, k]
      | _ => none
    ecdsa_signature_serialize_compact := fun sig => sig
    ecdsa_signature_parse_compact := fun bytes =>
      if bytes.length = 2 ∧ bytes[1]? ≠ some 0 then some bytes else none
    ec_pubkey_parse := fun bytes =>
      match bytes with
      | [2, k] => if k = 0 then none else some [2, k]
      | _ => none
    ecdsa_verify := fun sig h pub => decide (sig = [h, pub.getD 1 0])
    ec_pubkey_serialize := fun pub => (pub, pub.length) }

/-- A packet over `demoLayout` with a two-byte body. -/
def demoPacket : XBridgePacket := { m_body := [1, 0, 0, 0, 0, 7, 9] }

/-- The packet `demoPacket` after `sign([2, 5], [5])`. -/
def demoSigned : XBridgePacket := { m_body := [1, 2, 5, 24, 5, 7, 9] }

/-- A toy model of the floating-point operations: values are rational numbers,
the codec maps `3.5` to its IEEE-754 bit pattern and back. -/
def demoFloat : FloatModel ℚ ℚ :=
  { widen := fun x => x
    narrow := fun x => x
    ofU64 := fun n => (n : ℚ)
    pack_f64 := fun v => if v = 7 / 2 then 0x400C000000000000 else 0
    unpack_f64 := fun n => if n = 0x400C000000000000 then 7 / 2 else 0 }

/-! ## The NUL-terminated string read -/

/-- The loop `for (; size + offset < bound; ++size) { if (m_body[size + offset]
== 0) break; }` of the NUL-terminated string read, where `bound` is the value of
`m_body.size() - headerSize`; the result is the value of `size` after the loop.
An access `m_body[...]` outside the buffer gives `none`.  The first argument
bounds the number of evaluations of the loop condition; `none` is returned when
it is used up. -/
def scanLoop (m_body : List Nat) (offset bound : Nat) : Nat → Nat → Option Nat
  | 0, _ => none
  | fuel + 1, size =>
    if (size + offset) % SIZE_MOD < bound then
      match m_body[(size + offset) % SIZE_MOD]? with
      | none => none
      | some b =>
        if b = 0 then some size else scanLoop m_body offset bound fuel (size + 1)
    else some size

/-- The value of the `size_t` expression `m_body.size() - headerSize`, the end of
the region that the NUL-terminated string read scans. -/
def XBridgePacket.scanBound (L : Layout) (p : XBridgePacket) : Nat :=
  (p.m_body.length + SIZE_MOD - L.headerSize) % SIZE_MOD

/-- The value of `size` after the scan loop of the NUL-terminated string read.
The loop condition is evaluated at most `scanBound + 1` times. -/
def XBridgePacket.scannedSize (L : Layout) (p : XBridgePacket) (offset : Nat) :
    Option Nat :=
  scanLoop p.m_body offset (p.scanBound L) (p.scanBound L + 1) 0

/-- The overload `size_t read(offset, std::string & data)`: the scan loop, then
`return read(offset, data, size) + 1` in `size_t` arithmetic. -/
def XBridgePacket.read_string (L : Layout) (p : XBridgePacket) (offset : Nat)
    (data : List Nat) : Option (Nat × List Nat) :=
  match p.scannedSize L offset with
  | none => none
  | some size =>
    match p.read_string_sized offset data size with
    | none => none
    | some (result, data1) => some ((result + 1) % SIZE_MOD, data1)

/-- A packet whose buffer is the string `"AB"` followed by `2 ^ 32 - 1` NUL bytes,
`2 ^ 32 + 1` bytes in all. -/
def hugePacket : XBridgePacket :=
  { m_body := [65, 66] ++ List.replicate (2 ^ 32 - 1) 0 }

/-! ## Specification-side definitions for signing and tampering -/

/-- The index `i` lies outside the signature field. -/
def Layout.outsideSignature (L : Layout) (i : Nat) : Prop :=
  i < L.signatureField ∨ L.signatureField + L.rawSignatureSize ≤ i

/-- The index `i` lies outside the sender-pubkey field and outside the signature
field. -/
def Layout.outsideFields (L : Layout) (i : Nat) : Prop :=
  (i < L.pubkeyField ∨ L.pubkeyField + L.pubkeySize ≤ i) ∧ L.outsideSignature i

instance (L : Layout) (i : Nat) : Decidable (L.outsideSignature i) := by
  unfold Layout.outsideSignature
  infer_instance

instance (L : Layout) (i : Nat) : Decidable (L.outsideFields i) := by
  unfold Layout.outsideFields
  infer_instance

/-- The compact serialisation of a signature has the width of the signature
field (the specification: "`signature` length is exactly the compact-signature
size"). -/
def Secp.compactSize {Sig Pub Hash : Type} (C : Secp Sig Pub Hash) (L : Layout) : Prop :=
  ∀ sig, (C.ecdsa_signature_serialize_compact sig).length = L.rawSignatureSize

/-- The hash is collision-free. -/
def Secp.collisionFree {Sig Pub Hash : Type} (C : Secp Sig Pub Hash) : Prop :=
  Function.Injective C.sha256

/-- The signature scheme is unforgeable: a signature that verifies for a hash
verifies for no other hash, under any key. -/
def Secp.unforgeable {Sig Pub Hash : Type} (C : Secp Sig Pub Hash) : Prop :=
  ∀ sig h h' scpubkey scpubkey', C.ecdsa_verify sig h scpubkey = true →
    C.ecdsa_verify sig h' scpubkey' = true → h = h'

/-- The byte `b` with bit `j` flipped. -/
def flipBit (b j : Nat) : Nat := b ^^^ 2 ^ j

/-- The packet with bit `j` of the byte at index `i` of the buffer flipped. -/
def XBridgePacket.flipBitAt (p : XBridgePacket) (i j : Nat) : XBridgePacket :=
  { m_body := storeAt p.m_body i [flipBit (p.m_body.getD i 0) j] }

/-- A toy scheme with a collision-free hash (the hashed bytes themselves) and
signatures that carry the signed hash; its table of compact signatures has the
single entry `[24, 5]`, the signature that the key `[5]` makes for the demo
packet. -/
def bindingSecp : Secp (List Nat × Nat) (List Nat) (List Nat) :=
  { sha256 := fun bytes => bytes
    ecdsa_sign := fun h priv =>
      match priv with
      | [k] => some (h, k)
      | _ => none
    ecdsa_signature_serialize_compact := fun sig => [sig.1.sum % 256, sig.2]
    ecdsa_signature_parse_compact := fun bytes =>
      if bytes = [24, 5] then some ([1, 2, 5, 0, 0, 7, 9], 5) else none
    ec_pubkey_parse := fun bytes =>
      match bytes with
      | [2, k] => if k = 0 then none else some [2, k]
      | _ => none
    ecdsa_verify := fun sig h pub => decide (sig.1 = h ∧ pub = [2, sig.2])
    ec_pubkey_serialize := fun pub => (pub, pub.length) }

/-- A scheme whose signing primitive always reports failure. -/
def failingSecp : Secp (List Nat) (List Nat) Nat :=
  { demoSecp with ecdsa_sign := fun _ _ => none }

/-! ## Memory lemmas -/

theorem memRead_of_le (buf : List Nat) (off n : Nat) (h : off + n ≤ buf.length) :
    memRead buf off n = some ((buf.drop off).take n) := by
  simp [memRead, h]

theorem memWrite_of_le (buf : List Nat) (off : Nat) (bytes : List Nat)
    (h : off + bytes.length ≤ buf.length) :
    memWrite buf off bytes = some (storeAt buf off bytes) := by
  simp [memWrite, h]

theorem length_slice (buf : List Nat) (off n : Nat) (h : off + n ≤ buf.length) :
    ((buf.drop off).take n).length = n := by
  simp only [List.length_take, List.length_drop]
  omega

theorem length_storeAt (buf : List Nat) (off : Nat) (bytes : List Nat)
    (h : off + bytes.length ≤ buf.length) :
    (storeAt buf off bytes).length = buf.length := by
  simp only [storeAt, List.length_append, List.length_take, List.length_drop]
  omega

theorem take_storeAt (buf bytes : List Nat) (off : Nat) (h : off ≤ buf.length) :
    (storeAt buf off bytes).take off = buf.take off := by
  have hl : (buf.take off).length = off := by simp [h]
  unfold storeAt
  rw [List.append_assoc, List.take_append_of_le_length (by omega)]
  rw [List.take_take]
  simp

theorem drop_storeAt (buf bytes : List Nat) (off : Nat) (h : off ≤ buf.length) :
    (storeAt buf off bytes).drop (off + bytes.length) = buf.drop (off + bytes.length) := by
  have hl : (buf.take off ++ bytes).length = off + bytes.length := by simp [h]
  unfold storeAt
  rw [← hl, List.drop_left]

theorem slice_storeAt (buf bytes : List Nat) (off : Nat) (h : off ≤ buf.length) :
    ((storeAt buf off bytes).drop off).take bytes.length = bytes := by
  have hl : (buf.take off).length = off := by simp [h]
  have hd : (buf.take off ++ (bytes ++ buf.drop (off + bytes.length))).drop off =
      bytes ++ buf.drop (off + bytes.length) := by
    have := List.drop_left (List.take off buf) (bytes ++ buf.drop (off + bytes.length))
    rwa [hl] at this
  unfold storeAt
  rw [List.append_assoc, hd, List.take_left]

theorem storeAt_slice (buf : List Nat) (off n : Nat) (h : off + n ≤ buf.length) :
    storeAt buf off ((buf.drop off).take n) = buf := by
  have hd : buf.drop (off + n) = (buf.drop off).drop n := by
    rw [List.drop_drop, Nat.add_comm]
  unfold storeAt
  rw [length_slice buf off n h, hd, List.append_assoc, List.take_append_drop,
    List.take_append_drop]

/-- A second store over the same range replaces the first. -/
theorem storeAt_storeAt (buf a b : List Nat) (off : Nat) (h : off ≤ buf.length)
    (hab : a.length = b.length) :
    storeAt (storeAt buf off a) off b = storeAt buf off b := by
  have ht := take_storeAt buf a off h
  have hd := drop_storeAt buf a off h
  rw [hab] at hd
  show (storeAt buf off a).take off ++ b ++ (storeAt buf off a).drop (off + b.length) = _
  rw [ht, hd]
  rfl

theorem getElem?_storeAt (buf bytes : List Nat) (off i : Nat)
    (h : off + bytes.length ≤ buf.length) :
    (storeAt buf off bytes)[i]? =
      if i < off then buf[i]?
      else if i < off + bytes.length then bytes[i - off]? else buf[i]? := by
  have hl : (buf.take off).length = off := by
    simp only [List.length_take]
    omega
  unfold storeAt
  by_cases h1 : i < off
  · rw [if_pos h1, List.append_assoc, List.getElem?_append_left (by omega),
      List.getElem?_take, if_pos h1]
  · rw [if_neg h1]
    by_cases h2 : i < off + bytes.length
    · rw [if_pos h2, List.getElem?_append_left
        (by simp only [List.length_append, List.length_take]; omega),
        List.getElem?_append_right (by omega), hl]
    · rw [if_neg h2, List.getElem?_append_right
        (by simp only [List.length_append, List.length_take]; omega),
        List.getElem?_drop]
      simp only [List.length_append, List.length_take]
      congr 1
      omega

/-- A store does not change the bytes of a range disjoint from the stored one. -/
theorem slice_storeAt_disjoint (buf bytes : List Nat) (off a n : Nat)
    (h : off + bytes.length ≤ buf.length)
    (hd : a + n ≤ off ∨ off + bytes.length ≤ a) :
    ((storeAt buf off bytes).drop a).take n = (buf.drop a).take n := by
  apply List.ext_getElem?
  intro i
  rw [List.getElem?_take, List.getElem?_take]
  by_cases hi : i < n
  · rw [if_pos hi, if_pos hi, List.getElem?_drop, List.getElem?_drop,
      getElem?_storeAt buf bytes off (a + i) h]
    rcases hd with hd | hd
    · rw [if_pos (by omega)]
    · rw [if_neg (by omega), if_neg (by omega)]
  · rw [if_neg hi, if_neg hi]

/-! ## The raw read -/

/-- Without wrap-around of `offset + size` the raw read rejects every range that
is not inside the buffer, and every empty range, copying nothing. -/
theorem read_rejects_without_wrap (p : XBridgePacket) (offset size : Nat) (data : List Nat)
    (hw : offset + size < SIZE_MOD) (h : offset + size > p.size ∨ size = 0) :
    p.read offset data size = some (0, data) := by
  have hm : (offset + size) % SIZE_MOD = offset + size := Nat.mod_eq_of_lt hw
  simp [XBridgePacket.read, hm, h]

/-- C1 (code defect): with `offset = 2 ^ 64 - 1` and `size = 2` the sum
`offset + size` exceeds the length 3 of the buffer, yet the raw read does not
return 0: the `size_t` sum wraps to 1, the bounds check passes, and the copy
addresses bytes outside the buffer. -/
theorem read_wraps_past_buffer :
    (2 ^ 64 - 1) + 2 > (XBridgePacket.mk [1, 2, 3]).size ∧
    (2 ^ 64 - 1 < SIZE_MOD ∧ 2 < SIZE_MOD) ∧
    (XBridgePacket.mk [1, 2, 3]).read (2 ^ 64 - 1) [9, 9] 2 ≠ some (0, [9, 9]) ∧
    (XBridgePacket.mk [1, 2, 3]).read (2 ^ 64 - 1) [9, 9] 2 = none := by
  decide

/-- A non-empty range inside the buffer is read: the raw read returns `size` and
replaces the first `size` bytes of the destination by the addressed bytes. -/
theorem read_of_in_bounds (p : XBridgePacket) (offset size : Nat) (data : List Nat)
    (hs : 0 < size) (hb : offset + size ≤ p.size) :
    p.read offset data size = some (size, p.bytesAt offset size ++ data.drop size) := by
  have hm : (offset + size) % SIZE_MOD ≤ p.size :=
    le_trans (Nat.mod_le _ _) hb
  have h1 : ¬ ((offset + size) % SIZE_MOD > p.size ∨ size = 0) := by omega
  have h2 : p.data + offset + size ≤ p.m_body.length := by
    unfold XBridgePacket.size at hb
    unfold XBridgePacket.data
    omega
  unfold XBridgePacket.read
  rw [if_neg h1, memRead_of_le _ _ _ h2]
  simp only [copyInto, XBridgePacket.bytesAt]
  have := length_slice p.m_body (p.data + offset) size h2
  rw [this]

/-- C2: for `size > 0` and `offset + size ≤ size()` the raw read returns `size`
and the first `size` bytes of the destination are the bytes of `data()` at
positions `offset .. offset + size - 1` (the rest of the destination is kept);
the `uint256` read is the raw read with size 32 and fills a 32-byte hash with
those 32 bytes; the byte-vector read returns `size` and the vector is exactly
those `size` bytes. -/
theorem read_returns_addressed_bytes (p : XBridgePacket) (offset size : Nat)
    (data hash vec : List Nat) (hs : 0 < size) (hb : offset + size ≤ p.size) :
    (p.bytesAt offset size).length = size ∧
    (∀ i, i < size → (p.bytesAt offset size)[i]? = p.m_body[p.data + offset + i]?) ∧
    p.read offset data size = some (size, p.bytesAt offset size ++ data.drop size) ∧
    p.read_uint256 offset hash = p.read offset hash 32 ∧
    (size = 32 → hash.length = 32 →
      p.read_uint256 offset hash = some (32, p.bytesAt offset 32)) ∧
    p.read_vector offset vec size = some (size, p.bytesAt offset size) := by
  have hlen : (p.bytesAt offset size).length = size := by
    unfold XBridgePacket.bytesAt XBridgePacket.data
    unfold XBridgePacket.size at hb
    simp only [List.length_take, List.length_drop]
    omega
  have hread : ∀ d : List Nat,
      p.read offset d size = some (size, p.bytesAt offset size ++ d.drop size) :=
    fun d => read_of_in_bounds p offset size d hs hb
  refine ⟨hlen, ?_, hread data, rfl, ?_, ?_⟩
  · intro i hi
    unfold XBridgePacket.bytesAt
    rw [List.getElem?_take, if_pos hi, List.getElem?_drop]
  · intro h32 hh
    subst h32
    rw [XBridgePacket.read_uint256, UINT256_SIZE, hread hash]
    have : hash.drop 32 = [] := by
      apply List.drop_eq_nil_of_le
      omega
    rw [this, List.append_nil]
  · rw [XBridgePacket.read_vector, hread]
    have : (resize vec size 0).drop size = [] := by
      apply List.drop_eq_nil_of_le
      simp only [resize, List.length_append, List.length_take, List.length_replicate]
      omega
    rw [this, List.append_nil]

/-- Witness of C2: a 40-byte buffer holding `0 .. 39`, 32 bytes read at
offset 3 into a destination, a hash and a vector. -/
theorem read_returns_addressed_bytes_witness :
    (0 < 32 ∧ 3 + 32 ≤ (XBridgePacket.mk (List.range 40)).size) ∧
    ((XBridgePacket.mk (List.range 40)).bytesAt 3 32).length = 32 ∧
    (∀ i, i < 32 → ((XBridgePacket.mk (List.range 40)).bytesAt 3 32)[i]? =
      (XBridgePacket.mk (List.range 40)).m_body[
        (XBridgePacket.mk (List.range 40)).data + 3 + i]?) ∧
    (XBridgePacket.mk (List.range 40)).read 3 (List.replicate 33 9) 32 =
      some (32, (XBridgePacket.mk (List.range 40)).bytesAt 3 32 ++
        (List.replicate 33 9).drop 32) ∧
    (XBridgePacket.mk (List.range 40)).read_uint256 3 (List.replicate 32 0) =
      (XBridgePacket.mk (List.range 40)).read 3 (List.replicate 32 0) 32 ∧
    (32 = 32 → (List.replicate 32 0).length = 32 →
      (XBridgePacket.mk (List.range 40)).read_uint256 3 (List.replicate 32 0) =
        some (32, (XBridgePacket.mk (List.range 40)).bytesAt 3 32)) ∧
    (XBridgePacket.mk (List.range 40)).read_vector 3 [] 32 =
      some (32, (XBridgePacket.mk (List.range 40)).bytesAt 3 32) :=
  ⟨⟨by decide, by decide⟩,
    read_returns_addressed_bytes (XBridgePacket.mk (List.range 40)) 3 32
      (List.replicate 33 9) (List.replicate 32 0) [] (by decide) (by decide)⟩

/-! ## Verification -/

theorem length_pubkeyBytes (L : Layout) (p : XBridgePacket)
    (hf : L.fieldsInHeader) (hh : p.hasHeader L) :
    (p.pubkeyBytes L).length = L.pubkeySize := by
  unfold Layout.fieldsInHeader at hf
  unfold XBridgePacket.hasHeader at hh
  exact length_slice _ _ _ (by omega)

theorem length_signatureBytes (L : Layout) (p : XBridgePacket)
    (hf : L.fieldsInHeader) (hh : p.hasHeader L) :
    (p.signatureBytes L).length = L.rawSignatureSize := by
  unfold Layout.fieldsInHeader at hf
  unfold XBridgePacket.hasHeader at hh
  exact length_slice _ _ _ (by omega)

/-- Every completed call of `verify()` leaves the packet as it was, whatever the
layout and the content of the buffer. -/
theorem verify_frame {Sig Pub Hash : Type} (L : Layout) (C : Secp Sig Pub Hash)
    (p q : XBridgePacket) (b : Bool) (h : p.verify L C = some (b, q)) : q = p := by
  by_cases hsig : L.signatureField + L.rawSignatureSize ≤ p.m_body.length
  · have hoff : L.signatureField ≤ p.m_body.length := by omega
    have hz : (List.replicate L.rawSignatureSize 0).length = L.rawSignatureSize :=
      List.length_replicate _ _
    have hs : (p.signatureBytes L).length = L.rawSignatureSize :=
      length_slice _ _ _ hsig
    have h1 : memRead p.m_body L.signatureField L.rawSignatureSize =
        some (p.signatureBytes L) := memRead_of_le _ _ _ hsig
    have h2 : memWrite p.m_body L.signatureField (List.replicate L.rawSignatureSize 0) =
        some (p.zeroedSignature L) :=
      memWrite_of_le _ _ _ (by rw [hz]; exact hsig)
    have hzl : (p.zeroedSignature L).length = p.m_body.length :=
      length_storeAt _ _ _ (by rw [hz]; exact hsig)
    have h3 : memWrite (p.zeroedSignature L) L.signatureField (p.signatureBytes L) =
        some p.m_body := by
      rw [memWrite_of_le _ _ _ (by rw [hs, hzl]; exact hsig)]
      unfold XBridgePacket.zeroedSignature
      rw [storeAt_storeAt _ _ _ _ hoff (by rw [hz, hs])]
      exact congrArg some (storeAt_slice p.m_body L.signatureField L.rawSignatureSize hsig)
    unfold XBridgePacket.verify at h
    simp only [h1, h2, h3] at h
    have key : ∀ c : Bool, some (c, ({ m_body := p.m_body } : XBridgePacket)) = some (b, q) →
        q = p := by
      intro c hc
      injection hc with hc
      exact (congrArg Prod.snd hc).symm
    split at h
    · exact key _ h
    · split at h
      · exact Option.noConfusion h
      · split at h
        · exact key _ h
        · split at h
          · exact key _ h
          · split at h
            · exact key _ h
            · split at h
              · exact key _ h
              · exact key _ h
  · have h1 : memRead p.m_body L.signatureField L.rawSignatureSize = none := by
      simp [memRead, hsig]
    unfold XBridgePacket.verify at h
    simp only [h1] at h
    exact Option.noConfusion h

/-- On a packet that holds a complete header, `verify()` returns `verifyResult`
and leaves the packet as it was. -/
theorem verify_eq {Sig Pub Hash : Type} (L : Layout) (C : Secp Sig Pub Hash)
    (p : XBridgePacket) (hf : L.fieldsInHeader) (hh : p.hasHeader L) :
    p.verify L C = some (p.verifyResult L C, p) := by
  have hsig : L.signatureField + L.rawSignatureSize ≤ p.m_body.length := by
    unfold Layout.fieldsInHeader at hf
    unfold XBridgePacket.hasHeader at hh
    omega
  have hpub : L.pubkeyField + L.pubkeySize ≤ p.m_body.length := by
    unfold Layout.fieldsInHeader at hf
    unfold XBridgePacket.hasHeader at hh
    omega
  have hoff : L.signatureField ≤ p.m_body.length := by omega
  have hz : (List.replicate L.rawSignatureSize 0).length = L.rawSignatureSize :=
    List.length_replicate _ _
  have hs : (p.signatureBytes L).length = L.rawSignatureSize :=
    length_signatureBytes L p hf hh
  -- the three accesses to the signature field
  have h1 : memRead p.m_body L.signatureField L.rawSignatureSize =
      some (p.signatureBytes L) := memRead_of_le _ _ _ hsig
  have h2 : memWrite p.m_body L.signatureField (List.replicate L.rawSignatureSize 0) =
      some (p.zeroedSignature L) :=
    memWrite_of_le _ _ _ (by rw [hz]; exact hsig)
  have hzl : (p.zeroedSignature L).length = p.m_body.length :=
    length_storeAt _ _ _ (by rw [hz]; exact hsig)
  have h3 : memWrite (p.zeroedSignature L) L.signatureField (p.signatureBytes L) =
      some p.m_body := by
    rw [memWrite_of_le _ _ _ (by rw [hs, hzl]; exact hsig)]
    unfold XBridgePacket.zeroedSignature
    rw [storeAt_storeAt _ _ _ _ hoff (by rw [hz, hs])]
    exact congrArg some (storeAt_slice p.m_body L.signatureField L.rawSignatureSize hsig)
  have h4 : memRead p.m_body L.pubkeyField L.pubkeySize = some (p.pubkeyBytes L) :=
    memRead_of_le _ _ _ hpub
  unfold XBridgePacket.verify XBridgePacket.verifyResult
  simp only [h1, h2, h3, h4]
  cases hps : C.ecdsa_signature_parse_compact (p.signatureBytes L) with
  | none => rfl
  | some sig =>
    cases hpk : C.ec_pubkey_parse (p.pubkeyBytes L) with
    | none => rfl
    | some scpubkey =>
      simp only []
      by_cases hv : C.ecdsa_verify sig (C.sha256 (p.zeroedSignature L)) scpubkey = true
      · by_cases hm : (C.ec_pubkey_serialize scpubkey).1.take L.pubkeySize = p.pubkeyBytes L
        · by_cases hl : (C.ec_pubkey_serialize scpubkey).2 = L.pubkeySize
          · simp [hv, hm, hl]
          · simp [hv, hm, hl]
        · simp [hv, hm]
      · simp [hv]

/-- The value `verifyResult` is `true` exactly when the five checks pass. -/
theorem verifyResult_iff {Sig Pub Hash : Type} (L : Layout) (C : Secp Sig Pub Hash)
    (p : XBridgePacket) : p.verifyResult L C = true ↔ p.fiveChecks L C := by
  unfold XBridgePacket.verifyResult XBridgePacket.fiveChecks
  constructor
  · intro h
    cases hps : C.ecdsa_signature_parse_compact (p.signatureBytes L) with
    | none => simp [hps] at h
    | some sig =>
      cases hpk : C.ec_pubkey_parse (p.pubkeyBytes L) with
      | none => simp [hps, hpk] at h
      | some scpubkey =>
        simp only [hps, hpk, Bool.and_eq_true, decide_eq_true_eq] at h
        exact ⟨sig, scpubkey, rfl, rfl, h.1.1, h.1.2, h.2⟩
  · rintro ⟨sig, scpubkey, hps, hpk, hv, hm, hl⟩
    simp [hps, hpk, hv, hm, hl]

/-- C3: `verify()` has no effect on the packet.  Every completed call, whichever
return path it takes and whatever the signature and pubkey bytes are, leaves
the byte buffer identical; on every packet that holds a complete header the
call completes with a result `b`, and any number of repeated calls returns `b`
each time and leaves the buffer identical. -/
theorem verify_has_no_effect {Sig Pub Hash : Type} (L : Layout) (C : Secp Sig Pub Hash)
    (p : XBridgePacket) :
    (∀ b q, p.verify L C = some (b, q) → q = p) ∧
    (L.fieldsInHeader → p.hasHeader L →
      ∃ b, p.verify L C = some (b, p) ∧
        ∀ n, XBridgePacket.verify_repeat L C n p = some (List.replicate n b, p)) := by
  refine ⟨fun b q h => verify_frame L C p q b h, ?_⟩
  intro hf hh
  refine ⟨p.verifyResult L C, verify_eq L C p hf hh, ?_⟩
  intro n
  induction n with
  | zero => rfl
  | succ k ih =>
    simp only [XBridgePacket.verify_repeat, verify_eq L C p hf hh, ih, List.replicate_succ]

/-- Witness of C3 on the unsigned demo packet, where `verify()` returns `false`. -/
theorem verify_has_no_effect_witness :
    (demoLayout.fieldsInHeader ∧ demoPacket.hasHeader demoLayout) ∧
    demoPacket.verify demoLayout demoSecp = some (false, demoPacket) ∧
    ∃ b, demoPacket.verify demoLayout demoSecp = some (b, demoPacket) ∧
      ∀ n, XBridgePacket.verify_repeat demoLayout demoSecp n demoPacket =
        some (List.replicate n b, demoPacket) :=
  ⟨⟨by decide, by decide⟩, by decide,
    (verify_has_no_effect demoLayout demoSecp demoPacket).2 (by decide) (by decide)⟩

/-- C9: on a packet that holds a complete header, `verify()` returns `true` if and
only if the five checks pass (signature field parses, sender-pubkey field
parses, the signature verifies under the key against the hash of the whole
buffer with zeroed signature field, the compressed re-serialisation equals the
sender-pubkey field, its length is `pubkeySize`); if one of them fails it
returns `false`. -/
theorem verify_iff_five_checks {Sig Pub Hash : Type} (L : Layout) (C : Secp Sig Pub Hash)
    (p : XBridgePacket) (hf : L.fieldsInHeader) (hh : p.hasHeader L) :
    (p.verify L C = some (true, p) ↔ p.fiveChecks L C) ∧
    (¬ p.fiveChecks L C → p.verify L C = some (false, p)) := by
  have he := verify_eq L C p hf hh
  have hiff := verifyResult_iff L C p
  constructor
  · constructor
    · intro h
      rw [he] at h
      have hb : p.verifyResult L C = true := by
        injection h with h
        exact congrArg Prod.fst h
      exact hiff.mp hb
    · intro h
      rw [he, hiff.mpr h]
  · intro h
    have hb : p.verifyResult L C = false := by
      cases hr : p.verifyResult L C with
      | false => rfl
      | true => exact absurd (hiff.mp hr) h
    rw [he, hb]

/-- Witness of C9 on the signed demo packet. -/
theorem verify_iff_five_checks_witness :
    (demoLayout.fieldsInHeader ∧ demoSigned.hasHeader demoLayout) ∧
    (demoSigned.verify demoLayout demoSecp = some (true, demoSigned) ↔
      demoSigned.fiveChecks demoLayout demoSecp) ∧
    (¬ demoSigned.fiveChecks demoLayout demoSecp →
      demoSigned.verify demoLayout demoSecp = some (false, demoSigned)) :=
  ⟨⟨by decide, by decide⟩,
    verify_iff_five_checks demoLayout demoSecp demoSigned (by decide) (by decide)⟩

/-- On a packet that holds a complete header, `verify(pubkey)` compares `pubkey`
with the sender-pubkey field and then calls `verify()`. -/
theorem verify_pubkey_eq {Sig Pub Hash : Type} (L : Layout)
    (C : Secp Sig Pub Hash) (p : XBridgePacket) (pubkey : List Nat)
    (hf : L.fieldsInHeader) (hh : p.hasHeader L) :
    p.verify_pubkey L C pubkey =
      if pubkey = p.pubkeyBytes L then p.verify L C else some (false, p) := by
  have hpub : L.pubkeySize + L.pubkeyField ≤ p.m_body.length := by
    unfold Layout.fieldsInHeader at hf
    unfold XBridgePacket.hasHeader at hh
    omega
  have h4 : memRead p.m_body L.pubkeyField L.pubkeySize = some (p.pubkeyBytes L) :=
    memRead_of_le _ _ _ (by omega)
  have hlen := length_pubkeyBytes L p hf hh
  unfold XBridgePacket.verify_pubkey
  by_cases heq : pubkey = p.pubkeyBytes L
  · have hl : pubkey.length = L.pubkeySize := by rw [heq, hlen]
    have ht : pubkey.take L.pubkeySize = pubkey := by
      rw [← hl, List.take_length]
    have hn : ¬ pubkey.length ≠ L.pubkeySize := by omega
    rw [if_neg hn, h4, if_pos heq]
    simp only [ht]
    rw [if_neg (by rw [heq]; exact fun h => h rfl)]
  · rw [if_neg heq]
    by_cases hl : pubkey.length = L.pubkeySize
    · have ht : pubkey.take L.pubkeySize = pubkey := by
        rw [← hl, List.take_length]
      have hne2 : p.pubkeyBytes L ≠ pubkey := fun h => heq h.symm
      simp [hl, h4, ht, hne2]
    · simp [hl]

/-- C7: on a packet that holds a complete header, `verify(expected_pubkey)`
returns `false` whenever `expected_pubkey` differs from the `pubkeySize` bytes
of the sender-pubkey field (a different length included), and otherwise returns
exactly what `verify()` returns. -/
theorem verify_pubkey_is_guarded_verify {Sig Pub Hash : Type} (L : Layout)
    (C : Secp Sig Pub Hash) (p : XBridgePacket) (expected_pubkey : List Nat)
    (hf : L.fieldsInHeader) (hh : p.hasHeader L) :
    (expected_pubkey ≠ p.pubkeyBytes L →
      p.verify_pubkey L C expected_pubkey = some (false, p)) ∧
    (expected_pubkey = p.pubkeyBytes L →
      p.verify_pubkey L C expected_pubkey = p.verify L C) := by
  rw [verify_pubkey_eq L C p expected_pubkey hf hh]
  constructor
  · intro hne
    rw [if_neg hne]
  · intro heq
    rw [if_pos heq]

/-- Witness of C7 on the signed demo packet with the expected key `[2, 6]`. -/
theorem verify_pubkey_is_guarded_verify_witness :
    (demoLayout.fieldsInHeader ∧ demoSigned.hasHeader demoLayout) ∧
    ([2, 6] ≠ demoSigned.pubkeyBytes demoLayout →
      demoSigned.verify_pubkey demoLayout demoSecp [2, 6] = some (false, demoSigned)) ∧
    ([2, 6] = demoSigned.pubkeyBytes demoLayout →
      demoSigned.verify_pubkey demoLayout demoSecp [2, 6] =
        demoSigned.verify demoLayout demoSecp) :=
  ⟨⟨by decide, by decide⟩,
    verify_pubkey_is_guarded_verify demoLayout demoSecp demoSigned [2, 6]
      (by decide) (by decide)⟩

/-! ## Signing -/

/-- C4: if `pubkey.size() != pubkeySize` or `privkey.size() != privkeySize` then
`sign(pubkey, privkey)` returns `false` and the packet, with all bytes of its
buffer, is unchanged. -/
theorem sign_rejects_key_length {Sig Pub Hash : Type} (L : Layout) (C : Secp Sig Pub Hash)
    (p : XBridgePacket) (pubkey privkey : List Nat)
    (h : pubkey.length ≠ L.pubkeySize ∨ privkey.length ≠ L.privkeySize) :
    p.sign L C pubkey privkey = some (false, p) := by
  unfold XBridgePacket.sign
  rw [if_pos h]

/-- Witness of C4: a three-byte public key where two bytes are required. -/
theorem sign_rejects_key_length_witness :
    (([2, 5, 5] : List Nat).length ≠ demoLayout.pubkeySize ∨
      ([5] : List Nat).length ≠ demoLayout.privkeySize) ∧
    demoPacket.sign demoLayout demoSecp [2, 5, 5] [5] = some (false, demoPacket) :=
  ⟨by decide, sign_rejects_key_length demoLayout demoSecp demoPacket [2, 5, 5] [5] (by decide)⟩

/-- With keys of the required lengths, on a packet that holds a complete header,
`sign` stores the public key, zeroes the signature field and signs the hash of
the resulting buffer; what follows depends on the result of signing only. -/
theorem sign_prologue {Sig Pub Hash : Type} (L : Layout) (C : Secp Sig Pub Hash)
    (p : XBridgePacket) (pubkey privkey : List Nat)
    (hf : L.fieldsInHeader) (hh : p.hasHeader L)
    (hpk : pubkey.length = L.pubkeySize) (hsk : privkey.length = L.privkeySize) :
    p.sign L C pubkey privkey =
      match C.ecdsa_sign (C.sha256 (p.signedBytes L pubkey)) privkey with
      | none => some (false, { m_body := p.signedBytes L pubkey })
      | some sig =>
        match memWrite (p.signedBytes L pubkey) L.signatureField
            (C.ecdsa_signature_serialize_compact sig) with
        | none => none
        | some b3 => XBridgePacket.verify L C { m_body := b3 } := by
  unfold Layout.fieldsInHeader at hf
  unfold XBridgePacket.hasHeader at hh
  have hz : (List.replicate L.rawSignatureSize 0).length = L.rawSignatureSize :=
    List.length_replicate _ _
  have ht : pubkey.take L.pubkeySize = pubkey := by rw [← hpk, List.take_length]
  have h1 : memWrite p.m_body L.pubkeyField pubkey =
      some (p.withPubkey L pubkey).m_body :=
    memWrite_of_le _ _ _ (by omega)
  have hl1 : (p.withPubkey L pubkey).m_body.length = p.m_body.length :=
    length_storeAt _ _ _ (by omega)
  have h2 : memWrite (p.withPubkey L pubkey).m_body L.signatureField
      (List.replicate L.rawSignatureSize 0) = some (p.signedBytes L pubkey) :=
    memWrite_of_le _ _ _ (by rw [hz, hl1]; omega)
  unfold XBridgePacket.sign
  rw [if_neg (by omega), ht, h1]
  simp only [h2]

theorem length_signedBytes (L : Layout) (p : XBridgePacket) (pubkey : List Nat)
    (hf : L.fieldsInHeader) (hh : p.hasHeader L) (hpk : pubkey.length = L.pubkeySize) :
    (p.signedBytes L pubkey).length = p.m_body.length := by
  unfold Layout.fieldsInHeader at hf
  unfold XBridgePacket.hasHeader at hh
  have hl1 : (p.withPubkey L pubkey).m_body.length = p.m_body.length :=
    length_storeAt _ _ _ (by omega)
  have hz : (List.replicate L.rawSignatureSize 0).length = L.rawSignatureSize :=
    List.length_replicate _ _
  unfold XBridgePacket.signedBytes XBridgePacket.zeroedSignature
  rw [length_storeAt _ _ _ (by rw [hz, hl1]; omega), hl1]

/-- When the signing primitive reports failure, `sign` returns `false` and leaves
the packet with the public key stored and the signature field zeroed. -/
theorem sign_of_signing_failed {Sig Pub Hash : Type} (L : Layout) (C : Secp Sig Pub Hash)
    (p : XBridgePacket) (pubkey privkey : List Nat)
    (hf : L.fieldsInHeader) (hh : p.hasHeader L)
    (hpk : pubkey.length = L.pubkeySize) (hsk : privkey.length = L.privkeySize)
    (hs : C.ecdsa_sign (C.sha256 (p.signedBytes L pubkey)) privkey = none) :
    p.sign L C pubkey privkey = some (false, { m_body := p.signedBytes L pubkey }) := by
  rw [sign_prologue L C p pubkey privkey hf hh hpk hsk, hs]

/-- When the signing primitive produces `sig`, whose compact form fills the
signature field, `sign` stores it and returns what `verify()` returns on the
resulting packet. -/
theorem sign_of_signed {Sig Pub Hash : Type} (L : Layout) (C : Secp Sig Pub Hash)
    (p : XBridgePacket) (pubkey privkey : List Nat) (sig : Sig)
    (hf : L.fieldsInHeader) (hh : p.hasHeader L)
    (hpk : pubkey.length = L.pubkeySize) (hsk : privkey.length = L.privkeySize)
    (hs : C.ecdsa_sign (C.sha256 (p.signedBytes L pubkey)) privkey = some sig)
    (hlen : (C.ecdsa_signature_serialize_compact sig).length = L.rawSignatureSize) :
    p.sign L C pubkey privkey =
      XBridgePacket.verify L C
        (XBridgePacket.withSignature L { m_body := p.signedBytes L pubkey }
          (C.ecdsa_signature_serialize_compact sig)) := by
  have hl := length_signedBytes L p pubkey hf hh hpk
  rw [sign_prologue L C p pubkey privkey hf hh hpk hsk, hs]
  simp only []
  unfold Layout.fieldsInHeader at hf
  unfold XBridgePacket.hasHeader at hh
  rw [memWrite_of_le _ _ _ (by rw [hlen, hl]; omega)]
  rfl

/-- The fields of a freshly signed buffer: the buffer with zeroed signature field
is the byte string that was hashed, the signature field holds the stored
signature and the sender-pubkey field holds the public key. -/
theorem fields_of_signed (L : Layout) (p : XBridgePacket) (pubkey ser : List Nat)
    (hf : L.fieldsInHeader) (hd : L.fieldsDisjoint) (hh : p.hasHeader L)
    (hpk : pubkey.length = L.pubkeySize) (hlen : ser.length = L.rawSignatureSize) :
    (XBridgePacket.withSignature L { m_body := p.signedBytes L pubkey } ser).hasHeader L ∧
    (XBridgePacket.withSignature L { m_body := p.signedBytes L pubkey } ser).zeroedSignature L
      = p.signedBytes L pubkey ∧
    (XBridgePacket.withSignature L { m_body := p.signedBytes L pubkey } ser).signatureBytes L
      = ser ∧
    (XBridgePacket.withSignature L { m_body := p.signedBytes L pubkey } ser).pubkeyBytes L
      = pubkey := by
  have hl := length_signedBytes L p pubkey hf hh hpk
  unfold Layout.fieldsInHeader at hf
  unfold Layout.fieldsDisjoint at hd
  unfold XBridgePacket.hasHeader at hh
  have hz : (List.replicate L.rawSignatureSize 0).length = L.rawSignatureSize :=
    List.length_replicate _ _
  have hl1 : (p.withPubkey L pubkey).m_body.length = p.m_body.length :=
    length_storeAt _ _ _ (by omega)
  have hoff : L.signatureField ≤ (p.signedBytes L pubkey).length := by omega
  have hoff1 : L.signatureField ≤ (p.withPubkey L pubkey).m_body.length := by omega
  refine ⟨?_, ?_, ?_, ?_⟩
  · show L.headerSize ≤ (storeAt (p.signedBytes L pubkey) L.signatureField ser).length
    rw [length_storeAt _ _ _ (by omega)]
    omega
  · show storeAt (storeAt (p.signedBytes L pubkey) L.signatureField ser) L.signatureField
      (List.replicate L.rawSignatureSize 0) = p.signedBytes L pubkey
    rw [storeAt_storeAt _ _ _ _ hoff (by rw [hz, hlen])]
    unfold XBridgePacket.signedBytes XBridgePacket.zeroedSignature
    rw [storeAt_storeAt _ _ _ _ hoff1 rfl]
  · show ((storeAt (p.signedBytes L pubkey) L.signatureField ser).drop
      L.signatureField).take L.rawSignatureSize = ser
    rw [← hlen]
    exact slice_storeAt _ _ _ hoff
  · show ((storeAt (p.signedBytes L pubkey) L.signatureField ser).drop
      L.pubkeyField).take L.pubkeySize = pubkey
    rw [slice_storeAt_disjoint _ _ _ _ _ (by omega) (by omega)]
    unfold XBridgePacket.signedBytes XBridgePacket.zeroedSignature
    rw [slice_storeAt_disjoint _ _ _ _ _ (by rw [hz]; omega) (by rw [hz]; omega)]
    show ((storeAt p.m_body L.pubkeyField pubkey).drop L.pubkeyField).take L.pubkeySize = _
    rw [← hpk]
    exact slice_storeAt _ _ _ (by omega)

/-- C8: for a valid keypair and correct primitives, on a packet that holds a
complete header whose two fields do not overlap, `sign(pubkey, privkey)` returns
`true`, and on the resulting packet `verify()` returns `true`, `verify(pubkey)`
returns `true`, and `verify(other_pubkey)` returns `false` for every
`other_pubkey != pubkey`; the bytes hashed by the following `verify()` (the
buffer with zeroed signature field) are the bytes hashed by `sign`. -/
theorem sign_then_verify_succeeds {Sig Pub Hash : Type} (L : Layout) (C : Secp Sig Pub Hash)
    (p : XBridgePacket) (pubkey privkey : List Nat)
    (hf : L.fieldsInHeader) (hd : L.fieldsDisjoint) (hh : p.hasHeader L)
    (hk : C.validKeypair L pubkey privkey) :
    ∃ q, p.sign L C pubkey privkey = some (true, q) ∧
      q.verify L C = some (true, q) ∧
      q.verify_pubkey L C pubkey = some (true, q) ∧
      (∀ other_pubkey, other_pubkey ≠ pubkey →
        q.verify_pubkey L C other_pubkey = some (false, q)) ∧
      q.zeroedSignature L = p.signedBytes L pubkey := by
  obtain ⟨hpk, hsk, hsign, hser, scpubkey, hparse, hver, hpser⟩ := hk
  obtain ⟨sig, hs⟩ := hsign (C.sha256 (p.signedBytes L pubkey))
  obtain ⟨hlen, hback⟩ := hser _ sig hs
  obtain ⟨qh, qz, qs, qp⟩ :=
    fields_of_signed L p pubkey (C.ecdsa_signature_serialize_compact sig) hf hd hh hpk hlen
  have hsig := sign_of_signed L C p pubkey privkey sig hf hh hpk hsk hs hlen
  generalize XBridgePacket.withSignature L { m_body := p.signedBytes L pubkey }
    (C.ecdsa_signature_serialize_compact sig) = q at qh qz qs qp hsig
  have hchecks : q.fiveChecks L C := by
    refine ⟨sig, scpubkey, ?_, ?_, ?_, ?_, ?_⟩
    · rw [qs, hback]
    · rw [qp, hparse]
    · rw [qz]
      exact hver _ sig hs
    · rw [qp, hpser]
      show pubkey.take L.pubkeySize = pubkey
      rw [← hpk, List.take_length]
    · rw [hpser]
  have hv : q.verify L C = some (true, q) := by
    rw [verify_eq L C q hf qh, (verifyResult_iff L C q).mpr hchecks]
  refine ⟨q, ?_, hv, ?_, ?_, qz⟩
  · rw [hsig, hv]
  · rw [verify_pubkey_eq L C q pubkey hf qh, if_pos qp.symm, hv]
  · intro other hne
    rw [verify_pubkey_eq L C q other hf qh, if_neg (by rw [qp]; exact hne)]

theorem demo_validKeypair : demoSecp.validKeypair demoLayout [2, 5] [5] := by
  refine ⟨rfl, rfl, ?_, ?_, [2, 5], rfl, ?_, rfl⟩
  · intro h
    exact ⟨[h, 5], rfl⟩
  · intro h sig hs
    have : sig = [h, 5] := by
      simp [demoSecp] at hs
      exact hs.symm
    subst this
    exact ⟨rfl, rfl⟩
  · intro h sig hs
    have : sig = [h, 5] := by
      simp [demoSecp] at hs
      exact hs.symm
    subst this
    simp [demoSecp]

/-- Witness of C8: the demo packet signed with the toy keypair `([2, 5], [5])`. -/
theorem sign_then_verify_succeeds_witness :
    (demoLayout.fieldsInHeader ∧ demoLayout.fieldsDisjoint ∧
      demoPacket.hasHeader demoLayout ∧ demoSecp.validKeypair demoLayout [2, 5] [5]) ∧
    ∃ q, demoPacket.sign demoLayout demoSecp [2, 5] [5] = some (true, q) ∧
      q.verify demoLayout demoSecp = some (true, q) ∧
      q.verify_pubkey demoLayout demoSecp [2, 5] = some (true, q) ∧
      (∀ other_pubkey, other_pubkey ≠ [2, 5] →
        q.verify_pubkey demoLayout demoSecp other_pubkey = some (false, q)) ∧
      q.zeroedSignature demoLayout = demoPacket.signedBytes demoLayout [2, 5] :=
  ⟨⟨by decide, by decide, by decide, demo_validKeypair⟩,
    sign_then_verify_succeeds demoLayout demoSecp demoPacket [2, 5] [5]
      (by decide) (by decide) (by decide) demo_validKeypair⟩

/-! ## Floating-point fields -/

theorem length_toBytes (n v : Nat) : (toBytes n v).length = n := by
  induction n generalizing v with
  | zero => rfl
  | succ k ih => simp [toBytes, ih]

theorem ofBytes_toBytes (n v : Nat) : ofBytes (toBytes n v) = v % 256 ^ n := by
  induction n generalizing v with
  | zero => simp [toBytes, ofBytes, Nat.mod_one]
  | succ k ih =>
    simp only [toBytes, ofBytes, ih]
    rw [pow_succ, Nat.mul_comm (256 ^ k) 256, Nat.mod_mul]

/-- An appended 64-bit integer is read back at the offset where it was appended. -/
theorem read_uint64_append_uint64 (p : XBridgePacket) (value old : Nat)
    (hv : value < 2 ^ 64) :
    (p.append_uint64 value).read_uint64 p.size old = some (8, value) := by
  have hb : p.size + 8 ≤ (p.append_uint64 value).size := by
    simp [XBridgePacket.size, XBridgePacket.append_uint64, length_toBytes]
  have hbytes : (p.append_uint64 value).bytesAt p.size 8 = toBytes 8 value := by
    unfold XBridgePacket.bytesAt XBridgePacket.append_uint64 XBridgePacket.data
      XBridgePacket.size
    rw [Nat.zero_add, List.drop_left]
    apply List.take_of_length_le
    rw [length_toBytes]
  have hd : (toBytes 8 old).drop 8 = [] := by
    apply List.drop_eq_nil_of_le
    rw [length_toBytes]
  unfold XBridgePacket.read_uint64
  rw [read_of_in_bounds _ _ _ _ (by decide) hb, hbytes, hd, List.append_nil]
  simp only [ofBytes_toBytes]
  have : value % 256 ^ 8 = value := Nat.mod_eq_of_lt (by omega)
  rw [this]

/-- C6: for every 32-bit `x`, `append(float)` appends the same 8-byte integer as
`append(double)` of the widened value, namely `pack_f64` of it; the float read
yields the narrowing of `unpack_f64` of the 8-byte integer read at the offset
and reports the byte count of that integer read; hence for an `x` that survives
widening, the codec and narrowing (every finite `x`), `append(x)` followed by
the float read at the offset of the appended field returns `x`. -/
theorem float_goes_through_f64_codec {F32 F64 : Type} (M : FloatModel F32 F64)
    (p : XBridgePacket) (x : F32) :
    p.append_float M x = p.append_double M (M.widen x) ∧
    p.append_float M x = p.append_uint64 (M.pack_f64 (M.widen x)) ∧
    (∀ offset, p.read_float M offset =
      (p.read_uint64 offset 0).map (fun r => (r.1, M.narrow (M.unpack_f64 r.2)))) ∧
    (M.pack_f64 (M.widen x) < 2 ^ 64 →
      M.unpack_f64 (M.pack_f64 (M.widen x)) = M.widen x →
      M.narrow (M.widen x) = x →
      (p.append_float M x).read_float M p.size = some (8, x)) := by
  refine ⟨rfl, rfl, ?_, ?_⟩
  · intro offset
    unfold XBridgePacket.read_float
    cases p.read_uint64 offset 0 with
    | none => rfl
    | some r => rfl
  · intro hr hc hn
    unfold XBridgePacket.read_float XBridgePacket.append_float
    rw [read_uint64_append_uint64 p _ 0 hr]
    simp only [hc, hn]

/-- Witness of C6: the value `3.5` in the toy float model is read back. -/
theorem float_goes_through_f64_codec_witness :
    (demoFloat.pack_f64 (demoFloat.widen (7 / 2)) < 2 ^ 64 ∧
      demoFloat.unpack_f64 (demoFloat.pack_f64 (demoFloat.widen (7 / 2))) =
        demoFloat.widen (7 / 2) ∧
      demoFloat.narrow (demoFloat.widen (7 / 2)) = 7 / 2) ∧
    (demoPacket.append_float demoFloat (7 / 2)).read_float demoFloat demoPacket.size =
      some (8, 7 / 2) :=
  ⟨⟨by simp [demoFloat], by simp [demoFloat], rfl⟩,
    (float_goes_through_f64_codec demoFloat demoPacket (7 / 2)).2.2.2
      (by simp [demoFloat]) (by simp [demoFloat]) rfl⟩

/-- No conversion of an unsigned integer to a rational number yields `3.5`. -/
theorem natCast_ne_seven_halves (n : Nat) : (n : ℚ) ≠ 7 / 2 := by
  intro h
  have h2 : ((2 * n : Nat) : ℚ) = ((7 : Nat) : ℚ) := by
    push_cast
    rw [h]
    norm_num
  have h3 : 2 * n = 7 := by exact_mod_cast h2
  omega

/-- C5 (code defect): the double read does not apply `unpack_f64`; after
`append(v)` it reports 8 bytes and yields the conversion to `double` of
`pack_f64` of the conversion to `double` of the stored integer.  Hence a value
`v` that is not the conversion of an unsigned integer, as `3.5` is not, is never
read back. -/
theorem read_double_packs_again {F32 F64 : Type} (M : FloatModel F32 F64)
    (p : XBridgePacket) (v : F64)
    (hr : M.pack_f64 v < 2 ^ 64) (hv : ∀ n, M.ofU64 n ≠ v) :
    (p.append_double M v).read_double M p.size =
      some (8, M.ofU64 (M.pack_f64 (M.ofU64 (M.pack_f64 v)))) ∧
    (p.append_double M v).read_double M p.size ≠ some (8, v) := by
  have h : (p.append_double M v).read_double M p.size =
      some (8, M.ofU64 (M.pack_f64 (M.ofU64 (M.pack_f64 v)))) := by
    unfold XBridgePacket.read_double XBridgePacket.append_double
    rw [read_uint64_append_uint64 p _ 0 hr]
  refine ⟨h, ?_⟩
  rw [h]
  intro he
  injection he with he
  exact hv _ (congrArg Prod.snd he)

/-- Failing input of C5: `3.5` appended to the demo packet and read back as a
`double`, although the codec of the toy model maps `3.5` to its bit pattern and
back. -/
theorem read_double_packs_again_witness :
    (demoFloat.pack_f64 (7 / 2) < 2 ^ 64 ∧ (∀ n, demoFloat.ofU64 n ≠ 7 / 2)) ∧
    demoFloat.unpack_f64 (demoFloat.pack_f64 (7 / 2)) = 7 / 2 ∧
    (demoPacket.append_double demoFloat (7 / 2)).read_double demoFloat demoPacket.size =
      some (8, demoFloat.ofU64 (demoFloat.pack_f64 (demoFloat.ofU64
        (demoFloat.pack_f64 (7 / 2))))) ∧
    (demoPacket.append_double demoFloat (7 / 2)).read_double demoFloat demoPacket.size ≠
      some (8, 7 / 2) :=
  ⟨⟨by simp [demoFloat], natCast_ne_seven_halves⟩, by simp [demoFloat],
    read_double_packs_again demoFloat demoPacket (7 / 2)
      (by simp [demoFloat]) natCast_ne_seven_halves⟩

/-! ## The fixed-size string read -/

theorem stripLoop_le (data : List Nat) (i : Nat) : stripLoop data i ≤ i := by
  induction i with
  | zero => exact Nat.le_refl 0
  | succ k ih =>
    unfold stripLoop
    split
    · omega
    · exact Nat.le_refl _

/-- The backward scan started inside a prefix of the string sees the prefix only. -/
theorem stripLoop_append (l m : List Nat) (i : Nat) (h : i < l.length) :
    stripLoop (l ++ m) i = stripLoop l i := by
  induction i with
  | zero => rfl
  | succ k ih =>
    unfold stripLoop
    rw [List.getElem?_append_left h, ih (by omega)]

/-- The backward scan over a non-empty string keeps the first byte and removes
the run of NUL bytes at the end of the remaining bytes. -/
theorem take_stripLoop (b : Nat) (bs : List Nat) :
    (b :: bs).take (stripLoop (b :: bs) bs.length + 1) =
      b :: bs.rdropWhile (fun c => c == 0) := by
  induction bs using List.reverseRecOn with
  | nil => rfl
  | append_singleton bs c ih =>
    have hlen : (bs ++ [c]).length = bs.length + 1 := by simp
    have hget : (b :: (bs ++ [c]))[bs.length + 1]? = some c := by
      rw [List.getElem?_cons_succ, List.getElem?_append_right (Nat.le_refl _)]
      simp
    rw [hlen]
    unfold stripLoop
    rw [hget]
    by_cases hc : c = 0
    · subst hc
      rw [if_pos rfl]
      have happ : b :: (bs ++ [0]) = (b :: bs) ++ [0] := rfl
      rw [happ, stripLoop_append (b :: bs) [0] bs.length (by simp),
        List.take_append_of_le_length
          (by have := stripLoop_le (b :: bs) bs.length; simp; omega),
        ih, List.rdropWhile_concat_pos _ _ _ (by simp)]
    · rw [if_neg (by simpa using hc), List.rdropWhile_concat_neg _ _ _ (by simpa using hc)]
      apply List.take_of_length_le
      simp

/-- The fixed-size string read of a non-empty range inside the buffer, for a
size below `2 ^ 32`: it returns `size`, keeps the first byte read and removes
the run of NUL bytes at the end of the remaining bytes. -/
theorem read_string_sized_of_in_bounds (p : XBridgePacket) (offset size : Nat)
    (data : List Nat) (hs : 0 < size) (h32 : size < U32_MOD)
    (hb : offset + size ≤ p.size) :
    p.read_string_sized offset data size =
      some (size,
        match p.bytesAt offset size with
        | [] => []
        | b :: bs => b :: bs.rdropWhile (fun c => c == 0)) := by
  have hlen : (p.bytesAt offset size).length = size := by
    unfold XBridgePacket.bytesAt XBridgePacket.data
    unfold XBridgePacket.size at hb
    simp only [List.length_take, List.length_drop]
    omega
  have hd : (resize data size 32).drop size = [] := by
    apply List.drop_eq_nil_of_le
    simp only [resize, List.length_append, List.length_take, List.length_replicate]
    omega
  unfold XBridgePacket.read_string_sized
  rw [read_of_in_bounds p offset size _ hs hb, hd, List.append_nil]
  simp only [gt_iff_lt, hs, if_true, hlen]
  cases hbytes : p.bytesAt offset size with
  | nil =>
    rw [hbytes] at hlen
    simp at hlen
    omega
  | cons b bs =>
    rw [hbytes] at hlen
    have hbl : bs.length + 1 = size := by simpa using hlen
    have hi : (size + SIZE_MOD - 1) % SIZE_MOD % U32_MOD = bs.length := by
      have h1 : size + SIZE_MOD - 1 = bs.length + SIZE_MOD := by omega
      have h2 : bs.length < SIZE_MOD := by
        unfold SIZE_MOD U32_MOD at *
        omega
      rw [h1, Nat.add_mod_right, Nat.mod_eq_of_lt h2, Nat.mod_eq_of_lt (by omega)]
    have hj := stripLoop_le (b :: bs) bs.length
    have hk : (stripLoop (b :: bs) bs.length + 1) % U32_MOD =
        stripLoop (b :: bs) bs.length + 1 := Nat.mod_eq_of_lt (by omega)
    simp only [hi, hk]
    have hr : resize (b :: bs) (stripLoop (b :: bs) bs.length + 1) 0 =
        (b :: bs).take (stripLoop (b :: bs) bs.length + 1) := by
      unfold resize
      have : stripLoop (b :: bs) bs.length + 1 - (b :: bs).length = 0 := by
        simp only [List.length_cons]
        omega
      rw [this, List.replicate_zero, List.append_nil]
    rw [hr, take_stripLoop]

/-- C10 (code defect): on a field that consists of NUL bytes only, the fixed-size
string read does not remove the whole run: reading the 3 bytes `0, 0, 0` at
offset 2 returns 3 and leaves the one-byte string `"\0"`, which ends in a NUL
byte, because the backward scan stops at index 0 without examining it. -/
theorem read_string_sized_keeps_first_nul :
    (0 < 3 ∧ 2 + 3 ≤ (XBridgePacket.mk [65, 66, 0, 0, 0]).size) ∧
    (XBridgePacket.mk [65, 66, 0, 0, 0]).bytesAt 2 3 = [0, 0, 0] ∧
    (XBridgePacket.mk [65, 66, 0, 0, 0]).read_string_sized 2 [] 3 = some (3, [0]) := by
  decide

/-! ## The NUL-terminated string read -/

/-- The scan loop, started at `size` with `size + offset` not past `bound` and
with enough evaluations left, ends at the first `s ≥ size` for which
`s + offset` reaches `bound` or `m_body[s + offset]` is zero. -/
theorem scanLoop_spec (m : List Nat) (offset bound : Nat) (hb : bound ≤ m.length)
    (hM : bound < SIZE_MOD) :
    ∀ fuel size, size + offset ≤ bound → bound - (size + offset) < fuel →
      ∃ s, scanLoop m offset bound fuel size = some s ∧ size ≤ s ∧ s + offset ≤ bound ∧
        (s + offset < bound → m[s + offset]? = some 0) ∧
        (∀ t, size ≤ t → t < s → m[t + offset]? ≠ some 0) := by
  intro fuel
  induction fuel with
  | zero =>
    intro size _ h
    omega
  | succ f ih =>
    intro size hle hf
    have hmod : (size + offset) % SIZE_MOD = size + offset :=
      Nat.mod_eq_of_lt (by omega)
    unfold scanLoop
    rw [hmod]
    by_cases hc : size + offset < bound
    · rw [if_pos hc]
      have hlt : size + offset < m.length := by omega
      rw [List.getElem?_eq_getElem hlt]
      simp only []
      by_cases hz : m[size + offset] = 0
      · rw [if_pos hz]
        refine ⟨size, rfl, Nat.le_refl _, hle, ?_, ?_⟩
        · intro _
          rw [List.getElem?_eq_getElem hlt, hz]
        · intro t h1 h2
          omega
      · rw [if_neg hz]
        obtain ⟨s, hs, h1, h2, h3, h4⟩ := ih (size + 1) (by omega) (by omega)
        refine ⟨s, hs, by omega, h2, h3, ?_⟩
        intro t ht1 ht2
        by_cases ht : t = size
        · subst ht
          rw [List.getElem?_eq_getElem hlt]
          intro he
          injection he with he
          exact hz he
        · exact h4 t (by omega) ht2
    · rw [if_neg hc]
      refine ⟨size, rfl, Nat.le_refl _, hle, ?_, ?_⟩
      · intro h
        omega
      · intro t h1 h2
        omega

theorem scanBound_of_hasHeader (L : Layout) (p : XBridgePacket) (hh : p.hasHeader L)
    (hlen : p.m_body.length < SIZE_MOD) :
    p.scanBound L = p.m_body.length - L.headerSize := by
  unfold XBridgePacket.hasHeader at hh
  unfold XBridgePacket.scanBound
  have h1 : p.m_body.length + SIZE_MOD - L.headerSize =
      p.m_body.length - L.headerSize + SIZE_MOD := by omega
  rw [h1, Nat.add_mod_right, Nat.mod_eq_of_lt (by omega)]

/-- On a packet that holds a complete header the scan completes: it yields the
first `s` for which `offset + s` reaches the end of the scanned region or the
byte of the buffer at index `offset + s` is zero; when `offset` is at or past
the end of the region it yields 0. -/
theorem scannedSize_spec (L : Layout) (p : XBridgePacket) (offset : Nat)
    (hh : p.hasHeader L) (hlen : p.m_body.length < SIZE_MOD) (hoff : offset < SIZE_MOD) :
    ∃ s, p.scannedSize L offset = some s ∧
      (s = 0 ∨ s + offset ≤ p.scanBound L) ∧
      (p.scanBound L ≤ offset → s = 0) ∧
      (s + offset < p.scanBound L → p.m_body[s + offset]? = some 0) ∧
      (∀ t, t < s → p.m_body[t + offset]? ≠ some 0) := by
  have hbd := scanBound_of_hasHeader L p hh hlen
  have hb : p.scanBound L ≤ p.m_body.length := by omega
  have hM : p.scanBound L < SIZE_MOD := by omega
  by_cases hc : offset ≤ p.scanBound L
  · obtain ⟨s, hs, _, h2, h3, h4⟩ :=
      scanLoop_spec p.m_body offset (p.scanBound L) hb hM (p.scanBound L + 1) 0
        (by omega) (by omega)
    refine ⟨s, hs, Or.inr h2, ?_, h3, fun t ht => h4 t (Nat.zero_le _) ht⟩
    intro h
    omega
  · refine ⟨0, ?_, Or.inl rfl, fun _ => rfl, ?_, ?_⟩
    · unfold XBridgePacket.scannedSize scanLoop
      rw [Nat.zero_add, Nat.mod_eq_of_lt hoff, if_neg (by omega)]
    · intro h
      omega
    · intro t ht
      omega

/-- A rejected raw read leaves the string of the fixed-size string read as
`resize(size, ' ')` made it and returns 0. -/
theorem read_string_sized_rejected (p : XBridgePacket) (offset size : Nat) (data : List Nat)
    (h : (offset + size) % SIZE_MOD > p.size ∨ size = 0) :
    p.read_string_sized offset data size = some (0, resize data size 32) := by
  unfold XBridgePacket.read_string_sized XBridgePacket.read
  rw [if_pos h]
  rfl

/-- A fixed-size string read of a non-empty range inside the buffer returns
`size`. -/
theorem read_string_sized_returns (p : XBridgePacket) (offset size : Nat) (data : List Nat)
    (hs : 0 < size) (hb : offset + size ≤ p.size) :
    ∃ d, p.read_string_sized offset data size = some (size, d) := by
  unfold XBridgePacket.read_string_sized
  rw [read_of_in_bounds p offset size _ hs hb]
  simp only [gt_iff_lt, hs, if_true]
  exact ⟨_, rfl⟩

/-- C17: on a packet whose buffer holds a complete header, for every offset the
NUL-terminated string read completes and returns a value `r ≥ 1`, namely 1 or
the scanned size plus 1; it returns exactly 1 when `offset` is at or past the
end of the scanned region, when the byte scanned at `offset` is zero, and when
the inner bounds-checked read is rejected, so the value 1 does not tell an
out-of-range offset from an empty string. -/
theorem read_string_never_zero (L : Layout) (p : XBridgePacket) (offset : Nat)
    (data : List Nat) (hh : p.hasHeader L) (hlen : p.m_body.length + 1 < SIZE_MOD)
    (hoff : offset < SIZE_MOD) :
    ∃ size r str, p.scannedSize L offset = some size ∧
      p.read_string L offset data = some (r, str) ∧
      1 ≤ r ∧ (r = 1 ∨ r = size + 1) ∧
      (p.scanBound L ≤ offset → r = 1) ∧
      (p.m_body[offset]? = some 0 → r = 1) ∧
      (((offset + size) % SIZE_MOD > p.size ∨ size = 0) → r = 1) := by
  obtain ⟨s, hs, h1, h2, h3, h4⟩ := scannedSize_spec L p offset hh (by omega) hoff
  have hbd := scanBound_of_hasHeader L p hh (by omega)
  have hone : (0 + 1) % SIZE_MOD = 1 := by decide
  by_cases hz : s = 0
  · subst hz
    have hr := read_string_sized_rejected p offset 0 data (Or.inr rfl)
    refine ⟨0, 1, resize data 0 32, hs, ?_, Nat.le_refl 1, Or.inl rfl, fun _ => rfl,
      fun _ => rfl, fun _ => rfl⟩
    unfold XBridgePacket.read_string
    rw [hs]
    simp only [hr, hone]
  · have hle : offset + s ≤ p.size := by
      unfold XBridgePacket.size
      omega
    obtain ⟨d, hd⟩ := read_string_sized_returns p offset s data (by omega) hle
    have hmod : (s + 1) % SIZE_MOD = s + 1 := Nat.mod_eq_of_lt (by omega)
    refine ⟨s, s + 1, d, hs, ?_, by omega, Or.inr rfl, ?_, ?_, ?_⟩
    · unfold XBridgePacket.read_string
      rw [hs]
      simp only [hd, hmod]
    · intro h
      exact absurd (h2 h) hz
    · intro h
      have := h4 0 (by omega)
      rw [Nat.zero_add] at this
      exact absurd h this
    · intro h
      have hm : (offset + s) % SIZE_MOD = offset + s := Nat.mod_eq_of_lt (by omega)
      rw [hm] at h
      omega

/-- Witness of C17: the empty string at offset 1 of the demo packet and the
out-of-range offset 100 both give the return value 1. -/
theorem read_string_never_zero_witness :
    (demoPacket.hasHeader demoLayout ∧ demoPacket.m_body.length + 1 < SIZE_MOD ∧
      1 < SIZE_MOD) ∧
    demoPacket.read_string demoLayout 1 [] = some (1, []) ∧
    demoPacket.read_string demoLayout 100 [] = some (1, []) ∧
    ∃ size r str, demoPacket.scannedSize demoLayout 1 = some size ∧
      demoPacket.read_string demoLayout 1 [] = some (r, str) ∧
      1 ≤ r ∧ (r = 1 ∨ r = size + 1) ∧
      (demoPacket.scanBound demoLayout ≤ 1 → r = 1) ∧
      (demoPacket.m_body[1]? = some 0 → r = 1) ∧
      (((1 + size) % SIZE_MOD > demoPacket.size ∨ size = 0) → r = 1) :=
  ⟨⟨by decide, by decide, by decide⟩, by decide, by decide,
    read_string_never_zero demoLayout demoPacket 1 [] (by decide) (by decide) (by decide)⟩

/-- C12 (code defect): the scan of the NUL-terminated string read indexes the
whole buffer, header included.  With a five-byte header `1, 0, 0, 0, 0` and
the body `65, 66, 0`, whose first zero byte is at body position 2, the read at
offset 0 stops at the zero byte of the header at index 1 and returns 2, not 3,
and the string is not the two body bytes `65, 66`. -/
theorem read_string_scans_header :
    ((XBridgePacket.mk [1, 0, 0, 0, 0, 65, 66, 0]).m_body.drop demoLayout.headerSize =
      [65, 66, 0]) ∧
    (XBridgePacket.mk [1, 0, 0, 0, 0, 65, 66, 0]).scannedSize demoLayout 0 = some 1 ∧
    (XBridgePacket.mk [1, 0, 0, 0, 0, 65, 66, 0]).read_string demoLayout 0 [] =
      some (2, [1]) := by
  decide

/-! ## Fixed-size strings with NUL padding -/

theorem rdropWhile_append_replicate_zero (l : List Nat) (k : Nat) :
    (l ++ List.replicate k 0).rdropWhile (fun c => c == 0) =
      l.rdropWhile (fun c => c == 0) := by
  induction k with
  | zero => rw [List.replicate_zero, List.append_nil]
  | succ n ih =>
    rw [List.replicate_succ', ← List.append_assoc,
      List.rdropWhile_concat_pos _ _ _ (by simp), ih]

theorem rdropWhile_of_no_zero (l : List Nat) (h : 0 ∉ l) :
    l.rdropWhile (fun c => c == 0) = l := by
  rw [List.rdropWhile_eq_self_iff]
  intro hl hc
  have hmem := List.getLast_mem hl
  have : l.getLast hl = 0 := by simpa using hc
  rw [this] at hmem
  exact h hmem

/-- For a size below `2 ^ 32`, a non-empty string without NUL byte that is stored
with NUL padding is read back by the fixed-size string read. -/
theorem read_string_sized_padded (p : XBridgePacket) (offset n : Nat) (s data : List Nat)
    (hs : s ≠ []) (hnul : 0 ∉ s) (hn : s.length ≤ n) (h32 : n < U32_MOD)
    (hbytes : p.bytesAt offset n = s ++ List.replicate (n - s.length) 0)
    (hb : offset + n ≤ p.size) :
    p.read_string_sized offset data n = some (n, s) := by
  cases s with
  | nil => exact absurd rfl hs
  | cons b bs =>
    have hpos : 0 < n := by
      simp only [List.length_cons] at hn
      omega
    rw [read_string_sized_of_in_bounds p offset n data hpos h32 hb, hbytes]
    have hnb : 0 ∉ bs := fun h => hnul (List.mem_cons_of_mem _ h)
    simp only [List.cons_append]
    rw [rdropWhile_append_replicate_zero, rdropWhile_of_no_zero bs hnb]

/-- When `size - 1` is a multiple of `2 ^ 32`, the `uint32_t` index of the
backward scan starts at 0 and the fixed-size string read keeps one byte. -/
theorem read_string_sized_truncated (p : XBridgePacket) (offset size : Nat)
    (data : List Nat) (hs : 0 < size) (hM : size < SIZE_MOD)
    (ht : (size - 1) % U32_MOD = 0) (hb : offset + size ≤ p.size) :
    p.read_string_sized offset data size = some (size, (p.bytesAt offset size).take 1) := by
  have hlen : (p.bytesAt offset size).length = size := by
    unfold XBridgePacket.bytesAt XBridgePacket.data
    unfold XBridgePacket.size at hb
    simp only [List.length_take, List.length_drop]
    omega
  have hd : (resize data size 32).drop size = [] := by
    apply List.drop_eq_nil_of_le
    simp only [resize, List.length_append, List.length_take, List.length_replicate]
    omega
  have hi : (size + SIZE_MOD - 1) % SIZE_MOD % U32_MOD = 0 := by
    have h1 : size + SIZE_MOD - 1 = size - 1 + SIZE_MOD := by omega
    have h2 : size - 1 < SIZE_MOD := by omega
    rw [h1, Nat.add_mod_right, Nat.mod_eq_of_lt h2, ht]
  have hone : (0 + 1) % U32_MOD = 1 := by decide
  unfold XBridgePacket.read_string_sized
  rw [read_of_in_bounds p offset size _ hs hb, hd, List.append_nil]
  simp only [gt_iff_lt, hs, if_true, hlen, hi]
  have hstrip : stripLoop (p.bytesAt offset size) 0 = 0 := rfl
  rw [hstrip, hone]
  unfold resize
  have : 1 - (p.bytesAt offset size).length = 0 := by omega
  rw [this, List.replicate_zero, List.append_nil]

theorem size_hugePacket : hugePacket.size = 2 ^ 32 + 1 := by
  show ([65, 66] ++ List.replicate (2 ^ 32 - 1) 0).length = 2 ^ 32 + 1
  rw [List.length_append, List.length_replicate]
  decide

theorem bytesAt_hugePacket :
    hugePacket.bytesAt 0 (2 ^ 32 + 1) = [65, 66] ++ List.replicate (2 ^ 32 - 1) 0 := by
  have h := size_hugePacket
  unfold XBridgePacket.size at h
  unfold XBridgePacket.bytesAt XBridgePacket.data
  rw [Nat.add_zero, List.drop_zero]
  rw [List.take_of_length_le (by rw [h])]
  rfl

/-- C11 (code defect): the string `"AB"` stored at offset 0 with NUL padding to
`n = 2 ^ 32 + 1` bytes satisfies the premises of the claim, yet the fixed-size
string read returns `n` with the one-byte string `"A"`: the `uint32_t` index
`data.size() - 1` is truncated to 0. -/
theorem read_string_sized_truncates_index :
    (([65, 66] : List Nat) ≠ [] ∧ 0 ∉ ([65, 66] : List Nat) ∧
      ([65, 66] : List Nat).length ≤ 2 ^ 32 + 1) ∧
    hugePacket.bytesAt 0 (2 ^ 32 + 1) =
      [65, 66] ++ List.replicate (2 ^ 32 + 1 - ([65, 66] : List Nat).length) 0 ∧
    0 + (2 ^ 32 + 1) ≤ hugePacket.size ∧
    hugePacket.read_string_sized 0 [] (2 ^ 32 + 1) = some (2 ^ 32 + 1, [65]) ∧
    ([65] : List Nat) ≠ [65, 66] := by
  refine ⟨⟨by decide, by decide, by decide⟩, bytesAt_hugePacket, ?_, ?_, by decide⟩
  · rw [size_hugePacket]
    decide
  · rw [read_string_sized_truncated hugePacket 0 (2 ^ 32 + 1) [] (by decide) (by decide)
      (by decide) (by rw [size_hugePacket]; decide), bytesAt_hugePacket]
    rfl

/-! ## Resizing of the destination -/

theorem length_resize (l : List Nat) (n fill : Nat) : (resize l n fill).length = n := by
  simp only [resize, List.length_append, List.length_take, List.length_replicate]
  omega

theorem take_resize (l : List Nat) (n fill : Nat) :
    (resize l n fill).take (min l.length n) = l.take (min l.length n) := by
  unfold resize
  rw [List.take_append_of_le_length (by simp only [List.length_take]; omega),
    List.take_take]
  congr 1
  omega

theorem getElem?_resize_new (l : List Nat) (n fill i : Nat) (h1 : l.length ≤ i)
    (h2 : i < n) : (resize l n fill)[i]? = some fill := by
  unfold resize
  have hl : (l.take n).length = l.length := by
    simp only [List.length_take]
    omega
  rw [List.getElem?_append_right (by omega), List.getElem?_replicate]
  rw [if_pos (by omega)]

/-- Every completed raw read returns 0 with the destination untouched, or returns
`size > 0` with `size` bytes copied to the front of the destination. -/
theorem read_cases (p : XBridgePacket) (offset size r : Nat) (data d : List Nat)
    (h : p.read offset data size = some (r, d)) :
    (r = 0 ∧ d = data) ∨
    (r = size ∧ 0 < size ∧ ∃ bytes, bytes.length = size ∧ d = bytes ++ data.drop size) := by
  unfold XBridgePacket.read at h
  by_cases hc : (offset + size) % SIZE_MOD > p.size ∨ size = 0
  · rw [if_pos hc] at h
    injection h with h
    injection h with h1 h2
    exact Or.inl ⟨h1.symm, h2.symm⟩
  · rw [if_neg hc] at h
    by_cases hb : p.data + offset + size ≤ p.m_body.length
    · rw [memRead_of_le _ _ _ hb] at h
      injection h with h
      injection h with h1 h2
      refine Or.inr ⟨h1.symm, by omega, _, length_slice _ _ _ hb, ?_⟩
      rw [← h2, copyInto, length_slice _ _ _ hb]
    · have : memRead p.m_body (p.data + offset) size = none := by
        simp [memRead, hb]
      rw [this] at h
      exact Option.noConfusion h

/-- C18: the destination of a sized read is resized before the bounds check.
After every completed byte-vector read the vector has length exactly `size`;
when the read returned 0 the vector is `resize(size, 0)` of the old vector, so
its first `min(old length, size)` bytes are the old bytes and every new byte is
zero.  After a fixed-size string read that returned 0 the string is
`resize(size, ' ')` of the old string: length `size`, old characters kept, new
characters spaces, nothing stripped.  Both reads complete whenever
`offset + size` does not wrap. -/
theorem sized_read_resizes_first (p : XBridgePacket) (offset size : Nat)
    (vec str : List Nat) :
    (∀ r d, p.read_vector offset vec size = some (r, d) → d.length = size) ∧
    (∀ d, p.read_vector offset vec size = some (0, d) →
      d = resize vec size 0 ∧
      d.take (min vec.length size) = vec.take (min vec.length size) ∧
      ∀ i, vec.length ≤ i → i < size → d[i]? = some 0) ∧
    (∀ d, p.read_string_sized offset str size = some (0, d) →
      d = resize str size 32 ∧ d.length = size ∧
      d.take (min str.length size) = str.take (min str.length size) ∧
      ∀ i, str.length ≤ i → i < size → d[i]? = some 32) ∧
    (offset + size < SIZE_MOD →
      (∃ r d, p.read_vector offset vec size = some (r, d)) ∧
      ∃ r d, p.read_string_sized offset str size = some (r, d)) := by
  refine ⟨?_, ?_, ?_, ?_⟩
  · intro r d h
    rcases read_cases p offset size r _ d h with ⟨_, hd⟩ | ⟨_, _, bytes, hb, hd⟩
    · rw [hd, length_resize]
    · rw [hd, List.length_append, List.length_drop, length_resize, hb]
      omega
  · intro d h
    rcases read_cases p offset size 0 _ d h with ⟨_, hd⟩ | ⟨hr, hpos, _⟩
    · subst hd
      exact ⟨rfl, take_resize vec size 0, fun i h1 h2 => getElem?_resize_new vec size 0 i h1 h2⟩
    · omega
  · intro d h
    unfold XBridgePacket.read_string_sized at h
    cases hr : p.read offset (resize str size 32) size with
    | none =>
      rw [hr] at h
      exact Option.noConfusion h
    | some rd =>
      obtain ⟨r, d1⟩ := rd
      rw [hr] at h
      simp only [] at h
      rcases read_cases p offset size r _ d1 hr with ⟨h0, hd⟩ | ⟨hrs, hpos, _⟩
      · subst h0
        rw [if_neg (by omega)] at h
        injection h with h
        injection h with _ h2
        subst h2
        subst hd
        exact ⟨rfl, length_resize str size 32, take_resize str size 32,
          fun i h1 h2 => getElem?_resize_new str size 32 i h1 h2⟩
      · rw [if_pos (by omega)] at h
        injection h with h
        injection h with h1 _
        omega
  · intro hw
    by_cases hc : offset + size > p.size ∨ size = 0
    · exact ⟨⟨0, _, read_rejects_without_wrap p offset size _ hw hc⟩, 0, _,
        read_string_sized_rejected p offset size str
          (by rw [Nat.mod_eq_of_lt hw]; exact hc)⟩
    · have hs : 0 < size := by omega
      have hb : offset + size ≤ p.size := by omega
      exact ⟨⟨size, _, read_of_in_bounds p offset size _ hs hb⟩,
        size, read_string_sized_returns p offset size str hs hb⟩

/-- Witness of C18: reads of 4 bytes at offset 5 of the seven-byte demo packet
are rejected; the vector `[8, 9]` becomes `[8, 9, 0, 0]` and the string `"A\0"`
becomes `"A\0  "`. -/
theorem sized_read_resizes_first_witness :
    5 + 4 < SIZE_MOD ∧
    demoPacket.read_vector 5 [8, 9] 4 = some (0, [8, 9, 0, 0]) ∧
    demoPacket.read_string_sized 5 [65, 0] 4 = some (0, [65, 0, 32, 32]) ∧
    (∃ r d, demoPacket.read_vector 5 [8, 9] 4 = some (r, d)) ∧
    ∃ r d, demoPacket.read_string_sized 5 [65, 0] 4 = some (r, d) :=
  ⟨by decide, by decide, by decide,
    (sized_read_resizes_first demoPacket 5 4 [8, 9] [65, 0]).2.2.2 (by decide)⟩

/-! ## Frame of signing -/

/-- The byte string hashed by `sign` agrees with the buffer outside the two
fields. -/
theorem getElem?_signedBytes (L : Layout) (p : XBridgePacket) (pubkey : List Nat) (i : Nat)
    (hf : L.fieldsInHeader) (hh : p.hasHeader L) (hpk : pubkey.length = L.pubkeySize)
    (ho : L.outsideFields i) :
    (p.signedBytes L pubkey)[i]? = p.m_body[i]? := by
  unfold Layout.fieldsInHeader at hf
  unfold XBridgePacket.hasHeader at hh
  unfold Layout.outsideFields Layout.outsideSignature at ho
  have hz : (List.replicate L.rawSignatureSize 0).length = L.rawSignatureSize :=
    List.length_replicate _ _
  have hl1 : (p.withPubkey L pubkey).m_body.length = p.m_body.length :=
    length_storeAt _ _ _ (by omega)
  unfold XBridgePacket.signedBytes XBridgePacket.zeroedSignature
  rw [getElem?_storeAt _ _ _ _ (by rw [hz, hl1]; omega), hz]
  have h2 : (p.withPubkey L pubkey).m_body[i]? = p.m_body[i]? := by
    show (storeAt p.m_body L.pubkeyField pubkey)[i]? = _
    rw [getElem?_storeAt _ _ _ _ (by omega), hpk]
    rcases ho.1 with h | h
    · rw [if_pos h]
    · rw [if_neg (by omega), if_neg (by omega)]
  rcases ho.2 with h | h
  · rw [if_pos h, h2]
  · rw [if_neg (by omega), if_neg (by omega), h2]

/-- Storing a signature of the width of the signature field keeps the length of
the buffer, the bytes outside the signature field and the buffer with zeroed
signature field. -/
theorem frame_withSignature (L : Layout) (q : XBridgePacket) (ser : List Nat)
    (hlen : ser.length = L.rawSignatureSize)
    (hin : L.signatureField + L.rawSignatureSize ≤ q.m_body.length) :
    (q.withSignature L ser).m_body.length = q.m_body.length ∧
    (∀ i, L.outsideSignature i → (q.withSignature L ser).m_body[i]? = q.m_body[i]?) ∧
    (q.withSignature L ser).zeroedSignature L = q.zeroedSignature L ∧
    (q.withSignature L ser).signatureBytes L = ser := by
  have hz : (List.replicate L.rawSignatureSize 0).length = L.rawSignatureSize :=
    List.length_replicate _ _
  refine ⟨length_storeAt _ _ _ (by omega), ?_, ?_, ?_⟩
  · intro i ho
    unfold Layout.outsideSignature at ho
    show (storeAt q.m_body L.signatureField ser)[i]? = _
    rw [getElem?_storeAt _ _ _ _ (by omega), hlen]
    rcases ho with h | h
    · rw [if_pos h]
    · rw [if_neg (by omega), if_neg (by omega)]
  · show storeAt (storeAt q.m_body L.signatureField ser) L.signatureField
      (List.replicate L.rawSignatureSize 0) = _
    rw [storeAt_storeAt _ _ _ _ (by omega) (by rw [hz, hlen])]
    rfl
  · show ((storeAt q.m_body L.signatureField ser).drop L.signatureField).take
      L.rawSignatureSize = ser
    rw [← hlen]
    exact slice_storeAt _ _ _ (by omega)

/-- Zeroing an already zeroed signature field changes nothing. -/
theorem withSignature_zero_signedBytes (L : Layout) (p : XBridgePacket) (pubkey : List Nat)
    (hf : L.fieldsInHeader) (hh : p.hasHeader L) (hpk : pubkey.length = L.pubkeySize) :
    XBridgePacket.withSignature L { m_body := p.signedBytes L pubkey }
      (List.replicate L.rawSignatureSize 0) = { m_body := p.signedBytes L pubkey } := by
  unfold Layout.fieldsInHeader at hf
  unfold XBridgePacket.hasHeader at hh
  have hl1 : (p.withPubkey L pubkey).m_body.length = p.m_body.length :=
    length_storeAt _ _ _ (by omega)
  show XBridgePacket.mk (storeAt (storeAt (p.withPubkey L pubkey).m_body L.signatureField
    (List.replicate L.rawSignatureSize 0)) L.signatureField
    (List.replicate L.rawSignatureSize 0)) = _
  rw [storeAt_storeAt _ _ _ _ (by omega) rfl]
  rfl

/-- With keys of the required lengths and compact signatures of the width of the
signature field, on a packet that holds a complete header `sign` completes; the
packet it leaves is the byte string it hashed with some bytes of that width in
the signature field. -/
theorem sign_outcome {Sig Pub Hash : Type} (L : Layout) (C : Secp Sig Pub Hash)
    (p : XBridgePacket) (pubkey privkey : List Nat)
    (hf : L.fieldsInHeader) (hh : p.hasHeader L)
    (hpk : pubkey.length = L.pubkeySize) (hsk : privkey.length = L.privkeySize)
    (hc : C.compactSize L) :
    ∃ b ser, ser.length = L.rawSignatureSize ∧
      p.sign L C pubkey privkey =
        some (b, XBridgePacket.withSignature L { m_body := p.signedBytes L pubkey } ser) := by
  have hl := length_signedBytes L p pubkey hf hh hpk
  cases hs : C.ecdsa_sign (C.sha256 (p.signedBytes L pubkey)) privkey with
  | none =>
    refine ⟨false, List.replicate L.rawSignatureSize 0, List.length_replicate _ _, ?_⟩
    rw [sign_of_signing_failed L C p pubkey privkey hf hh hpk hsk hs,
      withSignature_zero_signedBytes L p pubkey hf hh hpk]
  | some sig =>
    have hq : (XBridgePacket.withSignature L { m_body := p.signedBytes L pubkey }
        (C.ecdsa_signature_serialize_compact sig)).hasHeader L := by
      unfold Layout.fieldsInHeader at hf
      unfold XBridgePacket.hasHeader at hh ⊢
      have := (frame_withSignature L { m_body := p.signedBytes L pubkey }
        (C.ecdsa_signature_serialize_compact sig) (hc sig) (by rw [hl]; omega)).1
      rw [this, hl]
      exact hh
    refine ⟨XBridgePacket.verifyResult L C
      (XBridgePacket.withSignature L { m_body := p.signedBytes L pubkey }
        (C.ecdsa_signature_serialize_compact sig)),
      C.ecdsa_signature_serialize_compact sig, hc sig, ?_⟩
    rw [sign_of_signed L C p pubkey privkey sig hf hh hpk hsk hs (hc sig),
      verify_eq L C _ hf hq]

/-- The packet that `sign` leaves: the length of the buffer, the bytes outside
the two fields and the buffer with zeroed signature field. -/
theorem frame_of_signed (L : Layout) (p : XBridgePacket) (pubkey ser : List Nat)
    (hf : L.fieldsInHeader) (hh : p.hasHeader L) (hpk : pubkey.length = L.pubkeySize)
    (hlen : ser.length = L.rawSignatureSize) :
    (XBridgePacket.withSignature L { m_body := p.signedBytes L pubkey } ser).m_body.length =
      p.m_body.length ∧
    (∀ i, L.outsideFields i →
      (XBridgePacket.withSignature L { m_body := p.signedBytes L pubkey } ser).m_body[i]? =
        p.m_body[i]?) ∧
    (XBridgePacket.withSignature L { m_body := p.signedBytes L pubkey } ser).zeroedSignature L =
      p.signedBytes L pubkey := by
  have hl := length_signedBytes L p pubkey hf hh hpk
  have hin : L.signatureField + L.rawSignatureSize ≤
      (XBridgePacket.mk (p.signedBytes L pubkey)).m_body.length := by
    unfold Layout.fieldsInHeader at hf
    unfold XBridgePacket.hasHeader at hh
    show _ ≤ (p.signedBytes L pubkey).length
    omega
  obtain ⟨h1, h2, h3, _⟩ :=
    frame_withSignature L { m_body := p.signedBytes L pubkey } ser hlen hin
  refine ⟨by rw [h1]; exact hl, ?_, ?_⟩
  · intro i ho
    rw [h2 i ho.2]
    exact getElem?_signedBytes L p pubkey i hf hh hpk ho
  · rw [h3]
    have := withSignature_zero_signedBytes L p pubkey hf hh hpk
    exact congrArg XBridgePacket.m_body this

/-- C14: on a packet that holds a complete header, with compact signatures of the
width of the signature field, `sign(pubkey, privkey)` completes for all keys;
whether it returns `true` or `false` the length of the buffer is unchanged and
every byte outside the sender-pubkey field and the signature field is
unchanged; when the key lengths are valid (and the two fields do not overlap)
the sender-pubkey field afterwards holds exactly the bytes of `pubkey`. -/
theorem sign_changes_only_the_two_fields {Sig Pub Hash : Type} (L : Layout)
    (C : Secp Sig Pub Hash) (p : XBridgePacket) (pubkey privkey : List Nat)
    (hf : L.fieldsInHeader) (hh : p.hasHeader L) (hc : C.compactSize L) :
    ∃ b q, p.sign L C pubkey privkey = some (b, q) ∧
      q.m_body.length = p.m_body.length ∧
      (∀ i, L.outsideFields i → q.m_body[i]? = p.m_body[i]?) ∧
      (pubkey.length = L.pubkeySize → privkey.length = L.privkeySize →
        L.fieldsDisjoint → q.pubkeyBytes L = pubkey) := by
  by_cases hk : pubkey.length ≠ L.pubkeySize ∨ privkey.length ≠ L.privkeySize
  · refine ⟨false, p, ?_, rfl, fun _ _ => rfl, ?_⟩
    · unfold XBridgePacket.sign
      rw [if_pos hk]
    · intro h1 h2
      omega
  · have hpk : pubkey.length = L.pubkeySize := by omega
    have hsk : privkey.length = L.privkeySize := by omega
    obtain ⟨b, ser, hlen, hs⟩ := sign_outcome L C p pubkey privkey hf hh hpk hsk hc
    obtain ⟨h1, h2, _⟩ := frame_of_signed L p pubkey ser hf hh hpk hlen
    refine ⟨b, _, hs, h1, h2, ?_⟩
    intro _ _ hd
    exact (fields_of_signed L p pubkey ser hf hd hh hpk hlen).2.2.2

theorem binding_compactSize : bindingSecp.compactSize demoLayout := by
  intro sig
  rfl

/-- Witness of C14: the demo packet signed with the key pair `([2, 5], [5])`. -/
theorem sign_changes_only_the_two_fields_witness :
    (demoLayout.fieldsInHeader ∧ demoPacket.hasHeader demoLayout ∧
      bindingSecp.compactSize demoLayout) ∧
    demoPacket.sign demoLayout bindingSecp [2, 5] [5] = some (true, demoSigned) ∧
    ∃ b q, demoPacket.sign demoLayout bindingSecp [2, 5] [5] = some (b, q) ∧
      q.m_body.length = demoPacket.m_body.length ∧
      (∀ i, demoLayout.outsideFields i → q.m_body[i]? = demoPacket.m_body[i]?) ∧
      (([2, 5] : List Nat).length = demoLayout.pubkeySize →
        ([5] : List Nat).length = demoLayout.privkeySize →
        demoLayout.fieldsDisjoint → q.pubkeyBytes demoLayout = [2, 5]) :=
  ⟨⟨by decide, by decide, binding_compactSize⟩, by decide,
    sign_changes_only_the_two_fields demoLayout bindingSecp demoPacket [2, 5] [5]
      (by decide) (by decide) binding_compactSize⟩

/-- Witness helper: the signing primitive of `failingSecp` fails on the demo
packet. -/
theorem failing_sign_fails :
    failingSecp.ecdsa_sign (failingSecp.sha256 (demoSigned.signedBytes demoLayout [2, 6])) [5] =
      none := rfl

/-- C15: for keys of the correct lengths on a packet that holds a complete
header, if the signing primitive reports failure then `sign` returns `false`
and the packet is the original packet with `pubkey` stored in the sender-pubkey
field and the `rawSignatureSize` bytes of the signature field set to zero:
the length and every byte outside the two fields are unchanged.  The
verification primitives play no part in this result: `verify()` is not
called. -/
theorem sign_state_after_signing_failure {Sig Pub Hash : Type} (L : Layout)
    (C : Secp Sig Pub Hash) (p : XBridgePacket) (pubkey privkey : List Nat)
    (hf : L.fieldsInHeader) (hh : p.hasHeader L)
    (hpk : pubkey.length = L.pubkeySize) (hsk : privkey.length = L.privkeySize)
    (hs : C.ecdsa_sign (C.sha256 (p.signedBytes L pubkey)) privkey = none) :
    p.sign L C pubkey privkey =
      some (false, (p.withPubkey L pubkey).withSignature L
        (List.replicate L.rawSignatureSize 0)) ∧
    ((p.withPubkey L pubkey).withSignature L
      (List.replicate L.rawSignatureSize 0)).m_body.length = p.m_body.length ∧
    ((p.withPubkey L pubkey).withSignature L
      (List.replicate L.rawSignatureSize 0)).signatureBytes L =
        List.replicate L.rawSignatureSize 0 ∧
    (L.fieldsDisjoint → ((p.withPubkey L pubkey).withSignature L
      (List.replicate L.rawSignatureSize 0)).pubkeyBytes L = pubkey) ∧
    (∀ i, L.outsideFields i → ((p.withPubkey L pubkey).withSignature L
      (List.replicate L.rawSignatureSize 0)).m_body[i]? = p.m_body[i]?) ∧
    (∀ C' : Secp Sig Pub Hash, C'.sha256 = C.sha256 → C'.ecdsa_sign = C.ecdsa_sign →
      p.sign L C' pubkey privkey = p.sign L C pubkey privkey) := by
  have hz : (List.replicate L.rawSignatureSize 0).length = L.rawSignatureSize :=
    List.length_replicate _ _
  have hq : (p.withPubkey L pubkey).withSignature L (List.replicate L.rawSignatureSize 0) =
      XBridgePacket.withSignature L { m_body := p.signedBytes L pubkey }
        (List.replicate L.rawSignatureSize 0) := by
    rw [withSignature_zero_signedBytes L p pubkey hf hh hpk]
    rfl
  have hsign := sign_of_signing_failed L C p pubkey privkey hf hh hpk hsk hs
  obtain ⟨h1, h2, _⟩ := frame_of_signed L p pubkey _ hf hh hpk hz
  have hl := length_signedBytes L p pubkey hf hh hpk
  have hin : L.signatureField + L.rawSignatureSize ≤
      (XBridgePacket.mk (p.signedBytes L pubkey)).m_body.length := by
    unfold Layout.fieldsInHeader at hf
    unfold XBridgePacket.hasHeader at hh
    show _ ≤ (p.signedBytes L pubkey).length
    omega
  have h3 := (frame_withSignature L { m_body := p.signedBytes L pubkey } _ hz hin).2.2.2
  rw [hq]
  refine ⟨?_, h1, h3, ?_, h2, ?_⟩
  · rw [hsign, withSignature_zero_signedBytes L p pubkey hf hh hpk]
  · intro hd
    exact (fields_of_signed L p pubkey _ hf hd hh hpk hz).2.2.2
  · intro C' e1 e2
    have hs' : C'.ecdsa_sign (C'.sha256 (p.signedBytes L pubkey)) privkey = none := by
      rw [e1, e2]
      exact hs
    rw [sign_of_signing_failed L C' p pubkey privkey hf hh hpk hsk hs', hsign]

/-- Witness of C15: the signed demo packet signed again with the public key
`[2, 6]` under a signing primitive that fails. -/
theorem sign_state_after_signing_failure_witness :
    (demoLayout.fieldsInHeader ∧ demoSigned.hasHeader demoLayout ∧
      ([2, 6] : List Nat).length = demoLayout.pubkeySize ∧
      ([5] : List Nat).length = demoLayout.privkeySize ∧
      failingSecp.ecdsa_sign
        (failingSecp.sha256 (demoSigned.signedBytes demoLayout [2, 6])) [5] = none) ∧
    demoSigned.sign demoLayout failingSecp [2, 6] [5] =
      some (false, { m_body := [1, 2, 6, 0, 0, 7, 9] }) ∧
    demoSigned.sign demoLayout failingSecp [2, 6] [5] =
      some (false, (demoSigned.withPubkey demoLayout [2, 6]).withSignature demoLayout
        (List.replicate demoLayout.rawSignatureSize 0)) :=
  ⟨⟨by decide, by decide, by decide, by decide, failing_sign_fails⟩, by decide,
    (sign_state_after_signing_failure demoLayout failingSecp demoSigned [2, 6] [5]
      (by decide) (by decide) (by decide) (by decide) failing_sign_fails).1⟩

/-- The byte string hashed by `sign` does not depend on the old content of the
two fields. -/
theorem signedBytes_congr (L : Layout) (p1 p2 : XBridgePacket) (pubkey : List Nat)
    (hf : L.fieldsInHeader) (hh : p1.hasHeader L)
    (hlen : p1.m_body.length = p2.m_body.length)
    (hagree : ∀ i, L.outsideFields i → p1.m_body[i]? = p2.m_body[i]?)
    (hpk : pubkey.length = L.pubkeySize) :
    p1.signedBytes L pubkey = p2.signedBytes L pubkey := by
  unfold Layout.fieldsInHeader at hf
  unfold XBridgePacket.hasHeader at hh
  have hz : (List.replicate L.rawSignatureSize 0).length = L.rawSignatureSize :=
    List.length_replicate _ _
  have hl1 : (storeAt p1.m_body L.pubkeyField pubkey).length = p1.m_body.length :=
    length_storeAt _ _ _ (by omega)
  have hl2 : (storeAt p2.m_body L.pubkeyField pubkey).length = p2.m_body.length :=
    length_storeAt _ _ _ (by omega)
  have inner : ∀ i, L.outsideSignature i →
      (storeAt p1.m_body L.pubkeyField pubkey)[i]? =
        (storeAt p2.m_body L.pubkeyField pubkey)[i]? := by
    intro i ho
    rw [getElem?_storeAt p1.m_body pubkey L.pubkeyField i (by omega),
      getElem?_storeAt p2.m_body pubkey L.pubkeyField i (by omega)]
    by_cases h1 : i < L.pubkeyField
    · rw [if_pos h1, if_pos h1]
      exact hagree i ⟨Or.inl h1, ho⟩
    · rw [if_neg h1, if_neg h1]
      by_cases h2 : i < L.pubkeyField + pubkey.length
      · rw [if_pos h2, if_pos h2]
      · rw [if_neg h2, if_neg h2]
        exact hagree i ⟨Or.inr (by omega), ho⟩
  show storeAt (storeAt p1.m_body L.pubkeyField pubkey) L.signatureField
      (List.replicate L.rawSignatureSize 0) =
    storeAt (storeAt p2.m_body L.pubkeyField pubkey) L.signatureField
      (List.replicate L.rawSignatureSize 0)
  apply List.ext_getElem?
  intro i
  rw [getElem?_storeAt (storeAt p1.m_body L.pubkeyField pubkey)
      (List.replicate L.rawSignatureSize 0) L.signatureField i (by rw [hz, hl1]; omega),
    getElem?_storeAt (storeAt p2.m_body L.pubkeyField pubkey)
      (List.replicate L.rawSignatureSize 0) L.signatureField i (by rw [hz, hl2]; omega), hz]
  by_cases h1 : i < L.signatureField
  · rw [if_pos h1, if_pos h1]
    exact inner i (Or.inl h1)
  · rw [if_neg h1, if_neg h1]
    by_cases h2 : i < L.signatureField + L.rawSignatureSize
    · rw [if_pos h2, if_pos h2]
    · rw [if_neg h2, if_neg h2]
      exact inner i (Or.inr (by omega))

/-- C16: for two packets of equal length that agree on every byte outside the
sender-pubkey field and the signature field, and keys of the correct lengths,
`sign(pubkey, privkey)` gives the same result on both, returned value and byte
buffer; with compact signatures of the width of the signature field it
completes, and signing the resulting packet again with the same keys gives the
same value and the same bytes. -/
theorem sign_ignores_old_fields {Sig Pub Hash : Type} (L : Layout) (C : Secp Sig Pub Hash)
    (p1 p2 : XBridgePacket) (pubkey privkey : List Nat)
    (hf : L.fieldsInHeader) (hh : p1.hasHeader L)
    (hlen : p1.m_body.length = p2.m_body.length)
    (hagree : ∀ i, L.outsideFields i → p1.m_body[i]? = p2.m_body[i]?)
    (hpk : pubkey.length = L.pubkeySize) (hsk : privkey.length = L.privkeySize) :
    p1.sign L C pubkey privkey = p2.sign L C pubkey privkey ∧
    (C.compactSize L →
      ∃ b q, p1.sign L C pubkey privkey = some (b, q) ∧
        p2.sign L C pubkey privkey = some (b, q) ∧
        q.sign L C pubkey privkey = some (b, q)) := by
  have hh2 : p2.hasHeader L := by
    unfold XBridgePacket.hasHeader at hh ⊢
    omega
  have hsb := signedBytes_congr L p1 p2 pubkey hf hh hlen hagree hpk
  have heq : p1.sign L C pubkey privkey = p2.sign L C pubkey privkey := by
    rw [sign_prologue L C p1 pubkey privkey hf hh hpk hsk,
      sign_prologue L C p2 pubkey privkey hf hh2 hpk hsk, hsb]
  refine ⟨heq, ?_⟩
  intro hc
  obtain ⟨b, ser, hser, hs⟩ := sign_outcome L C p1 pubkey privkey hf hh hpk hsk hc
  obtain ⟨h1, h2, _⟩ := frame_of_signed L p1 pubkey ser hf hh hpk hser
  have hhq : (XBridgePacket.withSignature L { m_body := p1.signedBytes L pubkey }
      ser).hasHeader L := by
    unfold XBridgePacket.hasHeader at hh ⊢
    omega
  have hsbq := signedBytes_congr L _ p1 pubkey hf hhq h1 h2 hpk
  refine ⟨b, _, hs, by rw [← heq]; exact hs, ?_⟩
  rw [sign_prologue L C _ pubkey privkey hf hhq hpk hsk, hsbq,
    ← sign_prologue L C p1 pubkey privkey hf hh hpk hsk, hs]

/-- The unsigned and the signed demo packet agree outside the two fields. -/
theorem demo_agree_outside :
    ∀ i, demoLayout.outsideFields i → demoPacket.m_body[i]? = demoSigned.m_body[i]? := by
  intro i ho
  unfold Layout.outsideFields Layout.outsideSignature at ho
  have h : i = 0 ∨ 5 ≤ i := by
    simp only [demoLayout] at ho
    omega
  rcases h with h | h
  · subst h
    rfl
  · obtain ⟨k, rfl⟩ : ∃ k, i = 5 + k := ⟨i - 5, by omega⟩
    show ([1, 0, 0, 0, 0] ++ [7, 9])[5 + k]? = ([1, 2, 5, 24, 5] ++ [7, 9])[5 + k]?
    rw [List.getElem?_append_right (by simp), List.getElem?_append_right (by simp)]
    rfl

/-- Witness of C16: the unsigned and the signed demo packet, which differ in the
two fields only. -/
theorem sign_ignores_old_fields_witness :
    (demoLayout.fieldsInHeader ∧ demoPacket.hasHeader demoLayout ∧
      demoPacket.m_body.length = demoSigned.m_body.length ∧
      (∀ i, demoLayout.outsideFields i → demoPacket.m_body[i]? = demoSigned.m_body[i]?) ∧
      ([2, 5] : List Nat).length = demoLayout.pubkeySize ∧
      ([5] : List Nat).length = demoLayout.privkeySize) ∧
    demoPacket.sign demoLayout bindingSecp [2, 5] [5] = some (true, demoSigned) ∧
    demoPacket.sign demoLayout bindingSecp [2, 5] [5] =
      demoSigned.sign demoLayout bindingSecp [2, 5] [5] ∧
    (bindingSecp.compactSize demoLayout →
      ∃ b q, demoPacket.sign demoLayout bindingSecp [2, 5] [5] = some (b, q) ∧
        demoSigned.sign demoLayout bindingSecp [2, 5] [5] = some (b, q) ∧
        q.sign demoLayout bindingSecp [2, 5] [5] = some (b, q)) :=
  ⟨⟨by decide, by decide, by decide, demo_agree_outside, by decide, by decide⟩, by decide,
    sign_ignores_old_fields demoLayout bindingSecp demoPacket demoSigned [2, 5] [5]
      (by decide) (by decide) (by decide) demo_agree_outside (by decide) (by decide)⟩

/-! ## Tamper detection -/

/-- The statement of `verify_eq` for a packet whose buffer holds the two fields. -/
theorem verify_eq_of_in_buffer {Sig Pub Hash : Type} (L : Layout) (C : Secp Sig Pub Hash)
    (p : XBridgePacket)
    (hsig : L.signatureField + L.rawSignatureSize ≤ p.m_body.length)
    (hpub : L.pubkeyField + L.pubkeySize ≤ p.m_body.length) :
    p.verify L C = some (p.verifyResult L C, p) :=
  verify_eq { L with headerSize := p.m_body.length } C p ⟨hpub, hsig⟩ (Nat.le_refl _)

/-- A call of `verify()` that returns `true` has read both fields inside the
buffer. -/
theorem verify_true_in_buffer {Sig Pub Hash : Type} (L : Layout) (C : Secp Sig Pub Hash)
    (p q : XBridgePacket) (h : p.verify L C = some (true, q)) :
    L.signatureField + L.rawSignatureSize ≤ p.m_body.length ∧
    L.pubkeyField + L.pubkeySize ≤ p.m_body.length := by
  by_cases hsig : L.signatureField + L.rawSignatureSize ≤ p.m_body.length
  · refine ⟨hsig, ?_⟩
    by_contra hpub
    have hoff : L.signatureField ≤ p.m_body.length := by omega
    have hz : (List.replicate L.rawSignatureSize 0).length = L.rawSignatureSize :=
      List.length_replicate _ _
    have hs : (p.signatureBytes L).length = L.rawSignatureSize :=
      length_slice _ _ _ hsig
    have h1 : memRead p.m_body L.signatureField L.rawSignatureSize =
        some (p.signatureBytes L) := memRead_of_le _ _ _ hsig
    have h2 : memWrite p.m_body L.signatureField (List.replicate L.rawSignatureSize 0) =
        some (p.zeroedSignature L) :=
      memWrite_of_le _ _ _ (by rw [hz]; exact hsig)
    have hzl : (p.zeroedSignature L).length = p.m_body.length :=
      length_storeAt _ _ _ (by rw [hz]; exact hsig)
    have h3 : memWrite (p.zeroedSignature L) L.signatureField (p.signatureBytes L) =
        some p.m_body := by
      rw [memWrite_of_le _ _ _ (by rw [hs, hzl]; exact hsig)]
      unfold XBridgePacket.zeroedSignature
      rw [storeAt_storeAt _ _ _ _ hoff (by rw [hz, hs])]
      exact congrArg some (storeAt_slice p.m_body L.signatureField L.rawSignatureSize hsig)
    have h4 : memRead p.m_body L.pubkeyField L.pubkeySize = none := by
      simp [memRead, hpub]
    unfold XBridgePacket.verify at h
    simp only [h1, h2, h3, h4] at h
    split at h
    · injection h with h
      exact Bool.noConfusion (congrArg Prod.fst h)
    · exact Option.noConfusion h
  · have h1 : memRead p.m_body L.signatureField L.rawSignatureSize = none := by
      simp [memRead, hsig]
    unfold XBridgePacket.verify at h
    simp only [h1] at h
    exact Option.noConfusion h

/-- When `sign` returns `true`, the keys have the required lengths and `verify()`
returns `true` on the packet that `sign` leaves. -/
theorem verify_of_sign_true {Sig Pub Hash : Type} (L : Layout) (C : Secp Sig Pub Hash)
    (p q : XBridgePacket) (pubkey privkey : List Nat)
    (h : p.sign L C pubkey privkey = some (true, q)) :
    (pubkey.length = L.pubkeySize ∧ privkey.length = L.privkeySize) ∧
    q.verify L C = some (true, q) := by
  unfold XBridgePacket.sign at h
  by_cases hk : pubkey.length ≠ L.pubkeySize ∨ privkey.length ≠ L.privkeySize
  · rw [if_pos hk] at h
    injection h with h
    exact Bool.noConfusion (congrArg Prod.fst h)
  · rw [if_neg hk] at h
    refine ⟨by omega, ?_⟩
    split at h
    · exact Option.noConfusion h
    · split at h
      · exact Option.noConfusion h
      · simp only [] at h
        split at h
        · injection h with h
          exact Bool.noConfusion (congrArg Prod.fst h)
        · split at h
          · exact Option.noConfusion h
          · have hq := verify_frame L C _ q true h
            rw [hq]
            rw [hq] at h
            exact h

theorem flipBit_ne (b j : Nat) : flipBit b j ≠ b := by
  intro h
  unfold flipBit at h
  have h1 : b ^^^ (b ^^^ 2 ^ j) = 2 ^ j := Nat.xor_cancel_left b (2 ^ j)
  rw [h, Nat.xor_self] at h1
  have : 0 < 2 ^ j := Nat.two_pow_pos j
  omega

/-- Flipping a bit of a byte outside the signature field keeps the signature
field and changes the buffer with zeroed signature field. -/
theorem flipBitAt_outside_signature (L : Layout) (q : XBridgePacket) (i j : Nat)
    (hsig : L.signatureField + L.rawSignatureSize ≤ q.m_body.length)
    (hi : i < q.m_body.length) (ho : L.outsideSignature i) :
    (q.flipBitAt i j).m_body.length = q.m_body.length ∧
    (q.flipBitAt i j).signatureBytes L = q.signatureBytes L ∧
    (q.flipBitAt i j).zeroedSignature L ≠ q.zeroedSignature L := by
  unfold Layout.outsideSignature at ho
  have hz : (List.replicate L.rawSignatureSize 0).length = L.rawSignatureSize :=
    List.length_replicate _ _
  have h1 : ([flipBit (q.m_body.getD i 0) j] : List Nat).length = 1 := rfl
  have hl : (storeAt q.m_body i [flipBit (q.m_body.getD i 0) j]).length = q.m_body.length :=
    length_storeAt _ _ _ (by rw [h1]; omega)
  refine ⟨hl, ?_, ?_⟩
  · show ((storeAt q.m_body i [flipBit (q.m_body.getD i 0) j]).drop
      L.signatureField).take L.rawSignatureSize = _
    rw [slice_storeAt_disjoint q.m_body [flipBit (q.m_body.getD i 0) j] i L.signatureField
      L.rawSignatureSize (by rw [h1]; omega) (by rw [h1]; omega)]
    rfl
  · intro he
    have hget : (XBridgePacket.zeroedSignature L (q.flipBitAt i j))[i]? =
        (q.zeroedSignature L)[i]? := by rw [he]
    have hleft : (XBridgePacket.zeroedSignature L (q.flipBitAt i j))[i]? =
        some (flipBit (q.m_body.getD i 0) j) := by
      show (storeAt (storeAt q.m_body i [flipBit (q.m_body.getD i 0) j]) L.signatureField
        (List.replicate L.rawSignatureSize 0))[i]? = _
      have inner : (storeAt q.m_body i [flipBit (q.m_body.getD i 0) j])[i]? =
          some (flipBit (q.m_body.getD i 0) j) := by
        rw [getElem?_storeAt q.m_body [flipBit (q.m_body.getD i 0) j] i i (by rw [h1]; omega),
          if_neg (by omega), if_pos (by rw [h1]; omega), Nat.sub_self]
        rfl
      rw [getElem?_storeAt (storeAt q.m_body i [flipBit (q.m_body.getD i 0) j])
        (List.replicate L.rawSignatureSize 0) L.signatureField i (by rw [hz, hl]; exact hsig),
        hz]
      rcases ho with h | h
      · rw [if_pos h, inner]
      · rw [if_neg (by omega), if_neg (by omega), inner]
    have hright : (q.zeroedSignature L)[i]? = some (q.m_body.getD i 0) := by
      have hm : q.m_body[i]? = some (q.m_body.getD i 0) := by
        rw [List.getD_eq_getElem?_getD, List.getElem?_eq_getElem hi]
        rfl
      show (storeAt q.m_body L.signatureField (List.replicate L.rawSignatureSize 0))[i]? = _
      rw [getElem?_storeAt q.m_body (List.replicate L.rawSignatureSize 0) L.signatureField i
        (by rw [hz]; exact hsig), hz]
      rcases ho with h | h
      · rw [if_pos h, hm]
      · rw [if_neg (by omega), if_neg (by omega), hm]
    rw [hleft, hright] at hget
    injection hget with hget
    exact flipBit_ne _ _ hget

/-- C13: with a collision-free hash and an unforgeable signature scheme, after
`sign(pubkey, privkey)` returned `true`, flipping any single bit of a byte of
the buffer outside the signature field (body or header, the sender-pubkey field
included) changes the byte string that `verify()` hashes, and `verify()`
returns `false` on the resulting packet.  The byte string that `verify()`
hashes on the signed packet is the one that `sign` hashed. -/
theorem flipped_bit_fails_verify {Sig Pub Hash : Type} (L : Layout) (C : Secp Sig Pub Hash)
    (p q : XBridgePacket) (pubkey privkey : List Nat) (i j : Nat)
    (hcf : C.collisionFree) (huf : C.unforgeable)
    (hs : p.sign L C pubkey privkey = some (true, q))
    (hi : i < q.m_body.length) (ho : L.outsideSignature i) :
    (q.flipBitAt i j).zeroedSignature L ≠ q.zeroedSignature L ∧
    (q.flipBitAt i j).verify L C = some (false, q.flipBitAt i j) ∧
    (L.fieldsInHeader → p.hasHeader L → C.compactSize L →
      q.zeroedSignature L = p.signedBytes L pubkey) := by
  obtain ⟨⟨hpk, hsk⟩, hq⟩ := verify_of_sign_true L C p q pubkey privkey hs
  obtain ⟨hsig, hpub⟩ := verify_true_in_buffer L C q q hq
  obtain ⟨hl, hsb, hne⟩ := flipBitAt_outside_signature L q i j hsig hi ho
  have hres : q.verifyResult L C = true := by
    rw [verify_eq_of_in_buffer L C q hsig hpub] at hq
    injection hq with hq
    exact congrArg Prod.fst hq
  obtain ⟨sig, scpubkey, hps, _, hv, _, _⟩ := (verifyResult_iff L C q).mp hres
  refine ⟨hne, ?_, ?_⟩
  · rw [verify_eq_of_in_buffer L C _ (by rw [hl]; exact hsig) (by rw [hl]; exact hpub)]
    cases hr : (q.flipBitAt i j).verifyResult L C with
    | false => rfl
    | true =>
      obtain ⟨sig', scpubkey', hps', _, hv', _, _⟩ := (verifyResult_iff L C _).mp hr
      rw [hsb, hps] at hps'
      injection hps' with hps'
      subst hps'
      exact absurd (hcf (huf _ _ _ _ _ hv hv')).symm hne
  · intro hf hh hc
    obtain ⟨b, ser, hser, hsign⟩ := sign_outcome L C p pubkey privkey hf hh hpk hsk hc
    rw [hs] at hsign
    injection hsign with hsign
    have hq2 := congrArg Prod.snd hsign
    simp only [] at hq2
    rw [hq2]
    exact (frame_of_signed L p pubkey ser hf hh hpk hser).2.2

theorem binding_collisionFree : bindingSecp.collisionFree := fun _ _ h => h

theorem binding_unforgeable : bindingSecp.unforgeable := by
  intro sig h h' pk pk' h1 h2
  simp only [bindingSecp, decide_eq_true_eq] at h1 h2
  rw [← h1.1, ← h2.1]

/-- Witness of C13: in the signed demo packet, bit 0 of the first body byte is
flipped (`7` becomes `6`). -/
theorem flipped_bit_fails_verify_witness :
    (bindingSecp.collisionFree ∧ bindingSecp.unforgeable ∧
      demoPacket.sign demoLayout bindingSecp [2, 5] [5] = some (true, demoSigned) ∧
      5 < demoSigned.m_body.length ∧ demoLayout.outsideSignature 5) ∧
    demoSigned.flipBitAt 5 0 = { m_body := [1, 2, 5, 24, 5, 6, 9] } ∧
    (demoSigned.flipBitAt 5 0).zeroedSignature demoLayout ≠
      demoSigned.zeroedSignature demoLayout ∧
    (demoSigned.flipBitAt 5 0).verify demoLayout bindingSecp =
      some (false, demoSigned.flipBitAt 5 0) ∧
    (demoLayout.fieldsInHeader → demoPacket.hasHeader demoLayout →
      bindingSecp.compactSize demoLayout →
      demoSigned.zeroedSignature demoLayout = demoPacket.signedBytes demoLayout [2, 5]) :=
  ⟨⟨binding_collisionFree, binding_unforgeable, by decide, by decide, by decide⟩, by decide,
    flipped_bit_fails_verify demoLayout bindingSecp demoPacket demoSigned [2, 5] [5] 5 0
      binding_collisionFree binding_unforgeable (by decide) (by decide) (by decide)⟩

end XBridge
